import Mathlib

/-!
# ec2cat: region scan, price parsing and cost estimation

A shallow embedding of the Go sources `ec2.go`, `utils.go` and `main.go`.

* `float64` is modelled exactly: a finite value is a sign, a mantissa and a
  binary exponent, and every arithmetic operation rounds the exact result to
  the nearest binary64 value, ties to even (`F64.ofRatio`).
* `time.Time` is a number of nanoseconds on a common time line, `time.Duration`
  a number of nanoseconds saturated to the `int64` range by `time.Time.Sub`.
* A Go panic is an outcome of its own (`Outcome.panic`), distinct from a returned
  error.
* Log output (`log.Printf`) is not part of the modelled state.
-/

namespace Ec2cat

/-! ## float64 -/

/-- Values of Go's `float64`. `fin neg m e` is `(-1)^neg * m * 2^e`. -/
inductive F64 where
  | nan : F64
  | inf (neg : Bool) : F64
  | fin (neg : Bool) (m : Nat) (e : Int) : F64
  deriving DecidableEq, Repr

/-- Number of binary digits of `n`, by halving; `fuel = n` is always enough. -/
def bitLenAux : Nat → Nat → Nat
  | 0, _ => 0
  | fuel + 1, n => if n = 0 then 0 else bitLenAux fuel (n / 2) + 1

/-- Number of binary digits of `n`: `2^(bitLen n - 1) ≤ n < 2^(bitLen n)` for `n > 0`. -/
def bitLen (n : Nat) : Nat := bitLenAux n n

/-- Nearest integer to `n / d`, ties to the even neighbour. -/
def roundNearestEven (n d : Nat) : Nat :=
  let k := n / d
  let r := n % d
  if 2 * r < d then k
  else if d < 2 * r then k + 1
  else if k % 2 = 0 then k else k + 1

/-- The exponent of the leading binary digit of `n / d`, that is
`floor (log2 (n / d))`, for `n, d > 0`. -/
def floorLog2Ratio (n d : Nat) : Int :=
  let e0 : Int := (bitLen n : Int) - (bitLen d : Int)
  let ge : Bool :=
    if 0 ≤ e0 then decide (d * 2 ^ e0.toNat ≤ n) else decide (d ≤ n * 2 ^ (-e0).toNat)
  if ge then e0 else e0 - 1

/-- The integer nearest to `n / d / 2^q`, ties to even. -/
def scaledRound (n d : Nat) (q : Int) : Nat :=
  if 0 ≤ q then roundNearestEven n (d * 2 ^ q.toNat)
  else roundNearestEven (n * 2 ^ (-q).toNat) d

/-- The value `(-1)^neg * k * 2^q` for a rounded mantissa `k ≤ 2^53`: a carry
into the next binade is renormalised, and a value of `2^1024` or more is an
infinity. -/
def F64.pack (neg : Bool) (k : Nat) (q : Int) : F64 :=
  if k = 0 then F64.fin neg 0 0
  else if k = 2 ^ 53 then
    (if 971 ≤ q then F64.inf neg else F64.fin neg (2 ^ 52) (q + 1))
  else if 971 < q then F64.inf neg
  else F64.fin neg k q

/-- The binary64 value nearest to the exact magnitude `n / d` (`d > 0`), with
sign `neg`: 53 significant bits, gradual underflow below `2^-1022`, overflow
to infinity from `2^1024`. -/
def F64.ofRatio (neg : Bool) (n d : Nat) : F64 :=
  if n = 0 ∨ d = 0 then F64.fin neg 0 0
  else
    let q : Int := max (floorLog2Ratio n d) (-1022) - 52
    F64.pack neg (scaledRound n d q) q

/-- The binary64 value nearest to `n / d * 2^e`. -/
def F64.ofScaled (neg : Bool) (n d : Nat) (e : Int) : F64 :=
  if 0 ≤ e then F64.ofRatio neg (n * 2 ^ e.toNat) d
  else F64.ofRatio neg n (d * 2 ^ (-e).toNat)

/-- Conversion `float64(i)` of an integer. -/
def F64.ofInt (i : Int) : F64 := F64.ofRatio (decide (i < 0)) i.natAbs 1

/-- The literal `0` of type `float64`. -/
def F64.zero : F64 := F64.fin false 0 0

/-- Go's `x + y` on `float64`. -/
def F64.add : F64 → F64 → F64
  | F64.nan, _ => F64.nan
  | _, F64.nan => F64.nan
  | F64.inf a, F64.inf b => if a = b then F64.inf a else F64.nan
  | F64.inf a, F64.fin _ _ _ => F64.inf a
  | F64.fin _ _ _, F64.inf b => F64.inf b
  | F64.fin na ma ea, F64.fin nb mb eb =>
    let e : Int := min ea eb
    let x : Int := (if na then -1 else 1) * ((ma * 2 ^ (ea - e).toNat : Nat) : Int)
    let y : Int := (if nb then -1 else 1) * ((mb * 2 ^ (eb - e).toNat : Nat) : Int)
    let s : Int := x + y
    if s = 0 then F64.fin (na && nb) 0 0
    else F64.ofScaled (decide (s < 0)) s.natAbs 1 e

/-- Go's `x * y` on `float64`. -/
def F64.mul : F64 → F64 → F64
  | F64.nan, _ => F64.nan
  | _, F64.nan => F64.nan
  | F64.inf a, F64.inf b => F64.inf (xor a b)
  | F64.inf a, F64.fin nb mb _ => if mb = 0 then F64.nan else F64.inf (xor a nb)
  | F64.fin na ma _, F64.inf b => if ma = 0 then F64.nan else F64.inf (xor na b)
  | F64.fin na ma ea, F64.fin nb mb eb => F64.ofScaled (xor na nb) (ma * mb) 1 (ea + eb)

/-- Go's `x / y` on `float64`. -/
def F64.div : F64 → F64 → F64
  | F64.nan, _ => F64.nan
  | _, F64.nan => F64.nan
  | F64.inf _, F64.inf _ => F64.nan
  | F64.inf a, F64.fin nb _ _ => F64.inf (xor a nb)
  | F64.fin na _ _, F64.inf b => F64.fin (xor na b) 0 0
  | F64.fin na ma ea, F64.fin nb mb eb =>
    if mb = 0 then (if ma = 0 then F64.nan else F64.inf (xor na nb))
    else F64.ofScaled (xor na nb) ma mb (ea - eb)

/-- Go's conversion `int(x)` of a `float64`: truncation toward zero. A value
outside the `int64` range (or NaN) converts to `-2^63`, as on amd64; the
language leaves that case to the implementation. -/
def F64.toInt : F64 → Int
  | F64.fin neg m e =>
    let mag : Nat := if 0 ≤ e then m * 2 ^ e.toNat else m / 2 ^ (-e).toNat
    let v : Int := if neg then -(mag : Int) else (mag : Int)
    if -(2 : Int) ^ 63 ≤ v ∧ v < (2 : Int) ^ 63 then v else -(2 : Int) ^ 63
  | _ => -(2 : Int) ^ 63

/-- Go's `x == 0` on `float64`: true for both signed zeros. -/
def F64.isZero : F64 → Bool
  | F64.fin _ m _ => decide (m = 0)
  | _ => false

/-- The digits of `x` in base ten, padded on the left with zeros to width 4. -/
def pad4 (x : Nat) : List Char :=
  let ds := Nat.toDigits 10 x
  List.replicate (4 - ds.length) '0' ++ ds

/-- Go's `fmt.Sprintf("%.4f", x)`: the exact value rounded to four decimals,
ties to even, with the sign bit shown. -/
def F64.fmt4 : F64 → String
  | F64.nan => "NaN"
  | F64.inf false => "+Inf"
  | F64.inf true => "-Inf"
  | F64.fin neg m e =>
    let k : Nat :=
      if 0 ≤ e then m * 2 ^ e.toNat * 10000
      else roundNearestEven (m * 10000) (2 ^ (-e).toNat)
    String.mk ((if neg then ['-'] else []) ++ Nat.toDigits 10 (k / 10000) ++ ['.'] ++ pad4 (k % 10000))

/-! ## time -/

/-- The constant `time.Minute`, in nanoseconds. -/
def Minute : Int := 60000000000

/-- The constant `time.Hour`, in nanoseconds. -/
def Hour : Int := 3600000000000

/-- The method `time.Duration.Hours`. -/
def durationHours (d : Int) : F64 :=
  let hour := Int.tdiv d Hour
  let nsec := Int.tmod d Hour
  F64.add (F64.ofInt hour) (F64.div (F64.ofInt nsec) (F64.ofInt 3600000000000))

/-- The method `time.Duration.Minutes`. -/
def durationMinutes (d : Int) : F64 :=
  let min := Int.tdiv d Minute
  let nsec := Int.tmod d Minute
  F64.add (F64.ofInt min) (F64.div (F64.ofInt nsec) (F64.ofInt 60000000000))

/-- The function `time.Since(t)` read at the instant `now`: `now - t`, saturated
to the range of `time.Duration`. -/
def timeSince (now t : Int) : Int :=
  let d := now - t
  if d < -(2 : Int) ^ 63 then -(2 : Int) ^ 63
  else if (2 : Int) ^ 63 - 1 < d then (2 : Int) ^ 63 - 1
  else d

/-! ## ec2.go: calculateRunningTime -/

/-- The function `calculateRunningTime` of `ec2.go`, with the clock read `now`. -/
def calculateRunningTime (now launchTime : Int) : String :=
  let duration := timeSince now launchTime
  let days := F64.toInt (F64.div (durationHours duration) (F64.ofInt 24))
  let hours := Int.tmod (F64.toInt (durationHours duration)) 24
  let minutes := Int.tmod (F64.toInt (durationMinutes duration)) 60
  toString days ++ "d " ++ toString hours ++ "h " ++ toString minutes ++ "m"

/-! ## Outcomes of a call -/

/-- What a Go call can do: return a value, return a non-nil error, or panic. -/
inductive Outcome (α : Type) where
  | val (a : α) : Outcome α
  | err (msg : String) : Outcome α
  | panic (msg : String) : Outcome α
  deriving DecidableEq, Repr

/-! ## utils.go: getEC2InstancePrice -/

/-- A value that `json.Unmarshal` stores in an `interface{}`. A JSON object (a
Go `map[string]interface{}`) is given as the list of its entries in the order
in which a `range` loop over the map visits them. -/
inductive Json where
  | null : Json
  | bool (b : Bool) : Json
  | num (x : F64) : Json
  | str (s : String) : Json
  | arr (xs : List Json) : Json
  | obj (kvs : List (String × Json)) : Json

/-- The map index expression `m[key]`: the entry's value, `none` for Go's nil
interface value when the key is absent. -/
def mapIndex (key : String) : List (String × Json) → Option Json
  | [] => none
  | (k, v) :: rest => if k = key then some v else mapIndex key rest

/-- The services and library functions `utils.go` calls. -/
structure Env where
  /-- The response of `pricing.GetProducts` for an instance type and a region code:
  the `PriceList` of the response, or the error of the call. -/
  getProducts : String → String → Except String (List String)
  /-- The function `json.Unmarshal` into a `map[string]interface{}`. -/
  unmarshal : String → Except String (List (String × Json))
  /-- The function `strconv.ParseFloat(s, 64)`. -/
  parseFloat : String → Except String F64

/-- The message of the panic of a failed single-value type assertion. -/
def conversionPanic : String := "interface conversion: interface {} is not map[string]interface {}"

/-- The inner loop of `getEC2InstancePrice`, over the entries of one term's
`priceDimensions`; `val none` when the loop ends without returning. -/
def scanPriceDimensions (parseFloat : String → Except String F64) :
    List (String × Json) → Outcome (Option F64)
  | [] => Outcome.val none
  | (_, pd) :: rest =>
    match pd with
    | Json.obj fields =>
      match mapIndex "pricePerUnit" fields with
      | some (Json.obj pricePerUnit) =>
        match mapIndex "USD" pricePerUnit with
        | some (Json.str usd) =>
          match parseFloat usd with
          | Except.error e => Outcome.err ("failed to parse price: " ++ e)
          | Except.ok price => Outcome.val (some price)
        | _ => scanPriceDimensions parseFloat rest
      | _ => scanPriceDimensions parseFloat rest
    | _ => Outcome.panic conversionPanic

/-- The outer loop of `getEC2InstancePrice`, over the entries of `terms.OnDemand`. -/
def scanOnDemand (parseFloat : String → Except String F64) :
    List (String × Json) → Outcome F64
  | [] => Outcome.err "no valid pricing information found"
  | (_, v) :: rest =>
    match v with
    | Json.obj fields =>
      match mapIndex "priceDimensions" fields with
      | some (Json.obj priceDimensions) =>
        match scanPriceDimensions parseFloat priceDimensions with
        | Outcome.val (some price) => Outcome.val price
        | Outcome.val none => scanOnDemand parseFloat rest
        | Outcome.err e => Outcome.err e
        | Outcome.panic m => Outcome.panic m
      | _ => scanOnDemand parseFloat rest
    | _ => Outcome.panic conversionPanic

/-- The part of `getEC2InstancePrice` that follows `json.Unmarshal`: the
traversal of the price document. -/
def priceOfDocument (parseFloat : String → Except String F64)
    (priceList : List (String × Json)) : Outcome F64 :=
  match mapIndex "terms" priceList with
  | some (Json.obj terms) =>
    match mapIndex "OnDemand" terms with
    | some (Json.obj onDemand) => scanOnDemand parseFloat onDemand
    | _ => Outcome.err "failed to parse on-demand pricing information"
  | _ => Outcome.err "failed to parse pricing information"

/-- The function `getEC2InstancePrice` of `utils.go`. -/
def getEC2InstancePrice (env : Env) (instanceType region : String) : Outcome F64 :=
  match env.getProducts instanceType region with
  | Except.error e => Outcome.err ("failed to get pricing information: " ++ e)
  | Except.ok [] => Outcome.err "no pricing information found"
  | Except.ok (first :: _) =>
    match env.unmarshal first with
    | Except.error e => Outcome.err ("failed to parse pricing information: " ++ e)
    | Except.ok priceList => priceOfDocument env.parseFloat priceList

/-! ## utils.go: cost estimation -/

/-- The fields of `types.Instance` the program reads. The SDK fills the
pointer fields (`InstanceId`, `LaunchTime`, `State`, a tag's `Key` and `Value`)
for every instance of a `DescribeInstances` response, so they are plain values. -/
structure Instance where
  instanceId : String
  instanceType : String
  state : String
  launchTime : Int
  tags : List (String × String)
  deriving DecidableEq, Repr

/-- The constant `ec2Types.InstanceStateNameStopped`. -/
def InstanceStateNameStopped : String := "stopped"

/-- The function `calculateTotalCost` of `utils.go`, with the clock read `now`. -/
def calculateTotalCost (now : Int) (hourlyCost : F64) (launchTime : Int) : F64 :=
  let runningHours := durationHours (timeSince now launchTime)
  F64.mul hourlyCost runningHours

/-- The function `estimateInstanceCost` of `utils.go`. It returns no error; a
panic of the price lookup passes through it. -/
def estimateInstanceCost (env : Env) (inst : Instance) (region : String) : Outcome F64 :=
  match getEC2InstancePrice env inst.instanceType region with
  | Outcome.panic m => Outcome.panic m
  | Outcome.err _ => Outcome.val F64.zero
  | Outcome.val price =>
    if inst.state = InstanceStateNameStopped then Outcome.val F64.zero
    else Outcome.val price

/-- The format `"$%.4f"` of the two cost columns. -/
def formatCost (x : F64) : String := "$" ++ F64.fmt4 x

/-! ## ec2.go: getEC2Instances -/

/-- The fields of `ec2.DescribeInstancesOutput` relevant to a listing: the
instances of each reservation, and the token of the next page when the
provider has split the listing. -/
structure DescribeInstancesOutput where
  reservations : List (List Instance)
  nextToken : Option String
  deriving DecidableEq, Repr

/-- A region-scoped client: the answer of `DescribeInstances` to a request
carrying the given `NextToken` (`none` for a request without one). -/
abbrev Client := Option String → Except String DescribeInstancesOutput

/-- The loop of `getEC2Instances` that appends every reservation's instances. -/
def appendReservations (instances : List Instance) : List (List Instance) → List Instance
  | [] => instances
  | reservation :: rest => appendReservations (instances ++ reservation) rest

/-- The function `getEC2Instances` of `ec2.go`: one `DescribeInstances` request
with an empty input. -/
def getEC2Instances (client : Client) : Except String (List Instance) :=
  match client none with
  | Except.error e => Except.error e
  | Except.ok result => Except.ok (appendReservations [] result.reservations)

/-- The listing the specification describes: the pages of the region merged into
one flat sequence, a further page requested while the last one names a next
token. `fuel` bounds the number of requests. -/
def listAllPages (client : Client) : Nat → Option String → Except String (List Instance)
  | 0, _ => Except.error "too many pages"
  | fuel + 1, token =>
    match client token with
    | Except.error e => Except.error e
    | Except.ok page =>
      match page.nextToken with
      | none => Except.ok page.reservations.flatten
      | some next =>
        match listAllPages client fuel (some next) with
        | Except.error e => Except.error e
        | Except.ok more => Except.ok (page.reservations.flatten ++ more)

/-! ## ec2.go: displayEC2InstancesTable -/

/-- The function `getInstanceName` of `ec2.go`. -/
def getInstanceName : List (String × String) → String
  | [] => "N/A"
  | (key, value) :: rest => if key = "Name" then value else getInstanceName rest

/-- One appended table row, in column order. -/
structure Row where
  region : String
  name : String
  instanceId : String
  instanceType : String
  state : String
  launchTime : String
  runningTime : String
  hourlyCost : String
  totalCost : String
  deriving DecidableEq, Repr

/-- What `displayEC2InstancesTable` prints: the rows of the table and the two totals. -/
structure Report where
  rows : List Row
  totalHourlyCost : F64
  totalCost : F64
  deriving DecidableEq, Repr

/-- The loop of `displayEC2InstancesTable` from index `i` on. `clock k` is the
`k`-th reading of the wall clock during the call (row `i` reads it twice) and
`formatTime` is `time.Time.Format` with the layout of the launch-time column.
The index expression `regions[i]` panics out of range. -/
def displayLoop (env : Env) (clock : Nat → Int) (formatTime : Int → String)
    (regions : List String) : Nat → List Instance → Report → Outcome Report
  | _, [], acc => Outcome.val acc
  | i, inst :: rest, acc =>
    let name := getInstanceName inst.tags
    let launchTime := formatTime inst.launchTime
    let runningTime := calculateRunningTime (clock (2 * i)) inst.launchTime
    match regions[i]? with
    | none => Outcome.panic "index out of range"
    | some region =>
      match estimateInstanceCost env inst region with
      | Outcome.panic m => Outcome.panic m
      | Outcome.err e => Outcome.err e
      | Outcome.val hourlyCost =>
        let instanceTotalCost := calculateTotalCost (clock (2 * i + 1)) hourlyCost inst.launchTime
        displayLoop env clock formatTime regions (i + 1) rest
          { rows := acc.rows ++ [{ region := region, name := name, instanceId := inst.instanceId,
                                   instanceType := inst.instanceType, state := inst.state,
                                   launchTime := launchTime, runningTime := runningTime,
                                   hourlyCost := formatCost hourlyCost,
                                   totalCost := formatCost instanceTotalCost }],
            totalHourlyCost := F64.add acc.totalHourlyCost hourlyCost,
            totalCost := F64.add acc.totalCost instanceTotalCost }

/-- The function `displayEC2InstancesTable` of `ec2.go`. -/
def displayEC2InstancesTable (env : Env) (clock : Nat → Int) (formatTime : Int → String)
    (instances : List Instance) (regions : List String) : Outcome Report :=
  displayLoop env clock formatTime regions 0 instances
    { rows := [], totalHourlyCost := F64.zero, totalCost := F64.zero }

/-! ## main.go: collecting the instances to display -/

/-- The slice assignment `xs[i] = v` with an `int` index; `none` is the
index-out-of-range panic. -/
def assignIndex (xs : List String) (i : Int) (v : String) : Option (List String) :=
  if 0 ≤ i ∧ i < (xs.length : Int) then some (xs.set i.toNat v) else none

/-- The loop `for i := range instances { instanceRegions[len(instanceRegions)-len(instances)+i] = r }`
of `main`, over the indices `is`. -/
def fillRegions (r : String) (count : Nat) : List Nat → List String → Option (List String)
  | [], instanceRegions => some instanceRegions
  | i :: rest, instanceRegions =>
    match assignIndex instanceRegions ((instanceRegions.length : Int) - (count : Int) + (i : Int)) r with
    | none => none
    | some updated => fillRegions r count rest updated

/-- The loop of `main` over `regionsWithInstances` in the "View all regions"
mode; each candidate region comes with the client `main` creates for it. A
region whose listing fails is skipped. `none` is an index panic. -/
def collectAllRegions : List (String × Client) → List Instance × List String →
    Option (List Instance × List String)
  | [], acc => some acc
  | (r, client) :: rest, (allInstances, instanceRegions) =>
    match getEC2Instances client with
    | Except.error _ => collectAllRegions rest (allInstances, instanceRegions)
    | Except.ok instances =>
      match fillRegions r instances.length (List.range instances.length)
          (instanceRegions ++ List.replicate instances.length "") with
      | none => none
      | some filled => collectAllRegions rest (allInstances ++ instances, filled)

/-- The single-region branch of `main`: the listing of the selected region, and
one copy of the region per instance. A failed listing is fatal (`log.Fatalf`). -/
def collectOneRegion (region : String) (client : Client) :
    Outcome (List Instance × List String) :=
  match getEC2Instances client with
  | Except.error e => Outcome.err ("Failed to get EC2 instance list: " ++ e)
  | Except.ok allInstances =>
    match fillRegions region allInstances.length (List.range allInstances.length)
        (List.replicate allInstances.length "") with
    | none => Outcome.panic "index out of range"
    | some instanceRegions => Outcome.val (allInstances, instanceRegions)

/-- The tail of `main` from the region prompt's answer `region` on: collect the
instances and their regions, then display them. `selected` is the client of the
selected region, `candidates` the regions found by the scan with their clients. -/
def mainDisplay (env : Env) (clock : Nat → Int) (formatTime : Int → String)
    (region : String) (selected : Client) (candidates : List (String × Client)) :
    Outcome Report :=
  if region = "View all regions" then
    match collectAllRegions candidates ([], []) with
    | none => Outcome.panic "index out of range"
    | some (allInstances, instanceRegions) =>
      displayEC2InstancesTable env clock formatTime allInstances instanceRegions
  else
    match collectOneRegion region selected with
    | Outcome.val (allInstances, instanceRegions) =>
      displayEC2InstancesTable env clock formatTime allInstances instanceRegions
    | Outcome.err e => Outcome.err e
    | Outcome.panic m => Outcome.panic m

/-! ## ec2.go: getRegionsWithInstances

The goroutines of `getRegionsWithInstances` as a transition system. The
goroutine of the `i`-th region is identified by `i`; a state records where
each goroutine stands, the contents of the three channels, the `WaitGroup`
counter, and where the calling goroutine and the closing goroutine stand. An
`Event` is one step of one goroutine; a schedule is a list of events. -/

/-- Where the calling goroutine of `getRegionsWithInstances` stands. -/
inductive MainPc where
  | spawning
  | readingRegions
  | readingErrors
  | returned
  deriving DecidableEq, Repr

/-- Where the goroutine `go func() { wg.Wait(); close(...); close(...) }()` stands. -/
inductive CloserPc where
  | notStarted
  | waiting
  | closingRegions
  | closingErrors
  | finished
  deriving DecidableEq, Repr

/-- A state of `getRegionsWithInstances`. -/
structure ScanState where
  /-- Regions for which the loop has not yet started a goroutine, in loop order. -/
  unspawned : List Nat
  /-- Goroutines started that have not yet sent to `semaphore`. -/
  waiting : List Nat
  /-- Goroutines holding a semaphore slot whose `getEC2Instances` call is in flight. -/
  inFlight : List Nat
  /-- Goroutines whose `getEC2Instances` call has returned. -/
  returned : List Nat
  /-- Goroutines past the body of the function, before the deferred `<-semaphore`. -/
  delivered : List Nat
  /-- Goroutines that have released the semaphore, before the deferred `wg.Done()`. -/
  released : List Nat
  /-- Goroutines that have called `wg.Done()`. -/
  finished : List Nat
  /-- Number of elements buffered in `semaphore`. -/
  semaphore : Nat
  /-- The counter of `wg`. -/
  wg : Nat
  /-- The buffer of the channel `regionsWithInstances`. -/
  regionsChan : List String
  regionsClosed : Bool
  /-- The buffer of the channel `errorChan`. -/
  errorChan : List String
  errorsClosed : Bool
  mainPc : MainPc
  closerPc : CloserPc
  /-- The slice `result` of the calling goroutine. -/
  result : List String
  /-- The slice `errors` of the calling goroutine. -/
  errors : List String
  /-- Whether a goroutine has panicked, by sending on a closed channel or by
  taking the `WaitGroup` counter below zero. -/
  panicked : Bool
  deriving DecidableEq, Repr

/-- One step of one goroutine. -/
inductive Event where
  /-- The loop body `wg.Add(1); go func(regionName)` for the next region. -/
  | spawn
  /-- The end of the loop and the start of the closing goroutine. -/
  | startCloser
  /-- Goroutine `i`: `semaphore <- struct{}{}`. -/
  | acquire (i : Nat)
  /-- Goroutine `i`: `getEC2Instances` returns. -/
  | callReturns (i : Nat)
  /-- Goroutine `i`: the rest of the body, a send to `errorChan`, a send to
  `regionsWithInstances`, or nothing. -/
  | deliver (i : Nat)
  /-- Goroutine `i`: the deferred `<-semaphore`. -/
  | release (i : Nat)
  /-- Goroutine `i`: the deferred `wg.Done()`, a panic at a zero counter. -/
  | done (i : Nat)
  /-- The closing goroutine: `wg.Wait()` returns. -/
  | waitReturns
  /-- The closing goroutine: `close(regionsWithInstances)`. -/
  | closeRegions
  /-- The closing goroutine: `close(errorChan)`. -/
  | closeErrors
  /-- The calling goroutine receives a region and appends it to `result`. -/
  | receiveRegion
  /-- The loop over `regionsWithInstances` ends. -/
  | regionsDrained
  /-- The calling goroutine receives an error and appends it to `errors`. -/
  | receiveError
  /-- The loop over `errorChan` ends and the function returns. -/
  | errorsDrained
  deriving DecidableEq, Repr

/-- The capacity of `semaphore`. -/
def concurrencyLimit : Nat := 10

/-- The error a goroutine sends for a failed listing of `regionName`. -/
def regionError (regionName e : String) : String :=
  "failed to get EC2 instances for region " ++ regionName ++ ": " ++ e

/-- What goroutine `i` sends to `regionsWithInstances`, if anything. -/
def candidateOf (regions : List (String × Client)) (i : Nat) : Option String :=
  match regions[i]? with
  | none => none
  | some (regionName, client) =>
    match getEC2Instances client with
    | Except.error _ => none
    | Except.ok instances => if 0 < instances.length then some regionName else none

/-- What goroutine `i` sends to `errorChan`, if anything. -/
def failureOf (regions : List (String × Client)) (i : Nat) : Option String :=
  match regions[i]? with
  | none => none
  | some (regionName, client) =>
    match getEC2Instances client with
    | Except.error e => some (regionError regionName e)
    | Except.ok _ => none

/-- The state at the entry of the loop over `regions`: three empty channels. -/
def scanInit (regions : List (String × Client)) : ScanState :=
  { unspawned := List.range regions.length, waiting := [], inFlight := [], returned := [],
    delivered := [], released := [], finished := [], semaphore := 0, wg := 0,
    regionsChan := [], regionsClosed := false, errorChan := [], errorsClosed := false,
    mainPc := MainPc.spawning, closerPc := CloserPc.notStarted, result := [], errors := [],
    panicked := false }

/-- The step `e` of a running program from state `s`, `none` when the goroutine
of `e` is not at that step or is blocked. Both result channels have capacity
`len(regions)`. -/
def scanStepLive (regions : List (String × Client)) (s : ScanState) : Event → Option ScanState
  | Event.spawn =>
    match s.mainPc, s.unspawned with
    | MainPc.spawning, i :: rest =>
      some { s with unspawned := rest, waiting := i :: s.waiting, wg := s.wg + 1 }
    | _, _ => none
  | Event.startCloser =>
    match s.mainPc, s.unspawned with
    | MainPc.spawning, [] =>
      some { s with mainPc := MainPc.readingRegions, closerPc := CloserPc.waiting }
    | _, _ => none
  | Event.acquire i =>
    if i ∈ s.waiting ∧ s.semaphore < concurrencyLimit then
      some { s with waiting := s.waiting.erase i, inFlight := i :: s.inFlight,
                    semaphore := s.semaphore + 1 }
    else none
  | Event.callReturns i =>
    if i ∈ s.inFlight then
      some { s with inFlight := s.inFlight.erase i, returned := i :: s.returned }
    else none
  | Event.deliver i =>
    if i ∈ s.returned then
      match failureOf regions i, candidateOf regions i with
      | some e, _ =>
        if s.errorsClosed then some { s with panicked := true }
        else if s.errorChan.length < regions.length then
          some { s with returned := s.returned.erase i, delivered := i :: s.delivered,
                        errorChan := s.errorChan ++ [e] }
        else none
      | none, some regionName =>
        if s.regionsClosed then some { s with panicked := true }
        else if s.regionsChan.length < regions.length then
          some { s with returned := s.returned.erase i, delivered := i :: s.delivered,
                        regionsChan := s.regionsChan ++ [regionName] }
        else none
      | none, none =>
        some { s with returned := s.returned.erase i, delivered := i :: s.delivered }
    else none
  | Event.release i =>
    if i ∈ s.delivered ∧ 0 < s.semaphore then
      some { s with delivered := s.delivered.erase i, released := i :: s.released,
                    semaphore := s.semaphore - 1 }
    else none
  | Event.done i =>
    if i ∈ s.released then
      if 0 < s.wg then
        some { s with released := s.released.erase i, finished := i :: s.finished,
                      wg := s.wg - 1 }
      else some { s with panicked := true }
    else none
  | Event.waitReturns =>
    if s.closerPc = CloserPc.waiting ∧ s.wg = 0 then
      some { s with closerPc := CloserPc.closingRegions }
    else none
  | Event.closeRegions =>
    if s.closerPc = CloserPc.closingRegions then
      some { s with closerPc := CloserPc.closingErrors, regionsClosed := true }
    else none
  | Event.closeErrors =>
    if s.closerPc = CloserPc.closingErrors then
      some { s with closerPc := CloserPc.finished, errorsClosed := true }
    else none
  | Event.receiveRegion =>
    match s.mainPc, s.regionsChan with
    | MainPc.readingRegions, region :: rest =>
      some { s with regionsChan := rest, result := s.result ++ [region] }
    | _, _ => none
  | Event.regionsDrained =>
    match s.mainPc, s.regionsChan with
    | MainPc.readingRegions, [] =>
      if s.regionsClosed then some { s with mainPc := MainPc.readingErrors } else none
    | _, _ => none
  | Event.receiveError =>
    match s.mainPc, s.errorChan with
    | MainPc.readingErrors, err :: rest =>
      some { s with errorChan := rest, errors := s.errors ++ [err] }
    | _, _ => none
  | Event.errorsDrained =>
    match s.mainPc, s.errorChan with
    | MainPc.readingErrors, [] =>
      if s.errorsClosed then some { s with mainPc := MainPc.returned } else none
    | _, _ => none

/-- The step `e` from state `s`: no goroutine moves after a panic. -/
def scanStep (regions : List (String × Client)) (s : ScanState) (e : Event) : Option ScanState :=
  if s.panicked then none else scanStepLive regions s e

/-- The state a schedule leads to from `s`, `none` when one of its steps is not
possible. -/
def scanRun (regions : List (String × Client)) : ScanState → List Event → Option ScanState
  | s, [] => some s
  | s, e :: rest =>
    match scanStep regions s e with
    | none => none
    | some next => scanRun regions next rest

/-- The value `fmt` prints for a slice of errors under `%v`. -/
def formatErrors (errors : List String) : String :=
  "[" ++ String.intercalate " " errors ++ "]"

/-- The two values `getRegionsWithInstances` returns from a state in which the
calling goroutine has left both loops: `result`, and the aggregated error when
`errors` is not empty. -/
def scanReturn (s : ScanState) : List String × Option String :=
  if 0 < s.errors.length then
    (s.result, some ("errors occurred while getting region information: " ++ formatErrors s.errors))
  else (s.result, none)

/-! ## Price documents: helper definitions for the statements -/

/-- The USD string of a price-dimension entry that has a `pricePerUnit` mapping
holding a string under `USD`. -/
def usdOf : Json → Option String
  | Json.obj fields =>
    match mapIndex "pricePerUnit" fields with
    | some (Json.obj pricePerUnit) =>
      match mapIndex "USD" pricePerUnit with
      | some (Json.str usd) => some usd
      | _ => none
    | _ => none
  | _ => none

/-- The entries of the `priceDimensions` mapping of a term, none when the key is
absent or holds no mapping. -/
def dimensionsOf : Json → List (String × Json)
  | Json.obj fields =>
    match mapIndex "priceDimensions" fields with
    | some (Json.obj priceDimensions) => priceDimensions
    | _ => []
  | _ => []

/-- Whether a value is a mapping. -/
def Json.isMapping : Json → Bool
  | Json.obj _ => true
  | _ => false

/-- Every on-demand term is a mapping, and so is every price-dimension entry of
every term. -/
def ShapeSafe (onDemand : List (String × Json)) : Prop :=
  ∀ term ∈ onDemand, term.2.isMapping = true ∧
    ∀ pd ∈ dimensionsOf term.2, pd.2.isMapping = true

/-- The first USD string among price-dimension entries, in iteration order. -/
def firstUsd : List (String × Json) → Option String
  | [] => none
  | pd :: rest =>
    match usdOf pd.2 with
    | some usd => some usd
    | none => firstUsd rest

/-- The first USD string among the price dimensions of all terms, in iteration order. -/
def firstUsdOfTerms : List (String × Json) → Option String
  | [] => none
  | term :: rest =>
    match firstUsd (dimensionsOf term.2) with
    | some usd => some usd
    | none => firstUsdOfTerms rest

/-- The outcome of the traversal once the first USD string is known. -/
def outcomeOfUsd (parseFloat : String → Except String F64) : Option String → Outcome F64
  | none => Outcome.err "no valid pricing information found"
  | some usd =>
    match parseFloat usd with
    | Except.error e => Outcome.err ("failed to parse price: " ++ e)
    | Except.ok price => Outcome.val price

/-! ## Sample price documents -/

/-- The binary64 value nearest to 0.05. -/
def samplePrice : F64 := F64.ofRatio false 5 100

/-- The function `strconv.ParseFloat` on the strings of the sample documents. -/
def sampleParseFloat (s : String) : Except String F64 :=
  if s = "0.05" then Except.ok samplePrice
  else Except.error "strconv.ParseFloat: parsing: invalid syntax"

/-- A term with one price dimension quoted at `usd` US dollars. -/
def sampleTerm (pdKey usd : String) : Json :=
  Json.obj [("priceDimensions",
    Json.obj [(pdKey, Json.obj [("unit", Json.str "Hrs"),
                                ("pricePerUnit", Json.obj [("USD", Json.str usd)])])]),
            ("sku", Json.str "ABC")]

/-- A price document whose on-demand terms are `onDemand`. -/
def sampleDocument (onDemand : List (String × Json)) : List (String × Json) :=
  [("serviceCode", Json.str "AmazonEC2"), ("terms", Json.obj [("OnDemand", Json.obj onDemand)])]

/-- Two on-demand terms: the first has no `priceDimensions` key, the second is
well formed. -/
def twoTerms : List (String × Json) :=
  [("A", Json.obj [("sku", Json.str "ABC")]), ("B", sampleTerm "P" "0.05")]

/-- One on-demand term that is a string, not a mapping. -/
def stringTerm : List (String × Json) := [("A", Json.str "oops")]

/-- The sample documents by name: `json.Unmarshal` of the price list entries
of the sample pricing service. -/
def sampleUnmarshal (s : String) : Except String (List (String × Json)) :=
  if s = "single" then Except.ok (sampleDocument [("A", sampleTerm "P" "0.05")])
  else if s = "two-terms" then Except.ok (sampleDocument twoTerms)
  else if s = "two-terms-reversed" then Except.ok (sampleDocument twoTerms.reverse)
  else if s = "string-term" then Except.ok (sampleDocument stringTerm)
  else if s = "no-terms" then Except.ok [("serviceCode", Json.str "AmazonEC2")]
  else if s = "unparsable-price" then Except.ok (sampleDocument [("A", sampleTerm "P" "n/a")])
  else Except.error "unexpected end of JSON input"

/-- A pricing service that answers every instance type with the one document
named after it (and with an empty price list for the type `none`, with a
transport error for the type `down`). -/
def sampleEnv : Env :=
  { getProducts := fun instanceType _ =>
      if instanceType = "none" then Except.ok []
      else if instanceType = "down" then Except.error "connection refused"
      else Except.ok [instanceType],
    unmarshal := sampleUnmarshal,
    parseFloat := sampleParseFloat }

/-! ## Sample listings -/

/-- A running instance. -/
def webServer : Instance :=
  { instanceId := "i-0a1", instanceType := "single", state := "running",
    launchTime := 0, tags := [("env", "prod"), ("Name", "web")] }

/-- A stopped instance. -/
def batchWorker : Instance :=
  { instanceId := "i-0b2", instanceType := "single", state := "stopped",
    launchTime := 0, tags := [] }

/-- A client whose region holds the given instances in one reservation, on one page. -/
def clientWith (instances : List Instance) : Client :=
  fun _ => Except.ok { reservations := [instances], nextToken := none }

/-- A client whose every request fails. -/
def failingClient : Client := fun _ => Except.error "RequestExpired"

/-- A client whose listing the provider splits into two pages: `webServer` on
the first, `batchWorker` on the page of token `page-2`. -/
def twoPageClient : Client := fun token =>
  match token with
  | none => Except.ok { reservations := [[webServer]], nextToken := some "page-2" }
  | some _ => Except.ok { reservations := [[batchWorker]], nextToken := none }

/-! ## The expected contents of the table -/

/-- The instances a client's listing yields in `main`: none when the listing fails. -/
def listingOf (client : Client) : List Instance :=
  match getEC2Instances client with
  | Except.ok instances => instances
  | Except.error _ => []

/-- The instances of the candidate regions, each with the region it was fetched
from, in candidate-region order and within-region listing order. -/
def taggedListing : List (String × Client) → List (Instance × String)
  | [] => []
  | (r, client) :: rest => (listingOf client).map (fun inst => (inst, r)) ++ taggedListing rest

/-- The hourly cost `estimateInstanceCost` returns, when it returns. -/
def hourlyCostOf (env : Env) (inst : Instance) (region : String) : F64 :=
  match estimateInstanceCost env inst region with
  | Outcome.val hourlyCost => hourlyCost
  | _ => F64.zero

/-- The row of the instance at index `i`, fetched from `region`. -/
def rowAt (env : Env) (clock : Nat → Int) (formatTime : Int → String) (i : Nat)
    (inst : Instance) (region : String) : Row :=
  { region := region, name := getInstanceName inst.tags, instanceId := inst.instanceId,
    instanceType := inst.instanceType, state := inst.state,
    launchTime := formatTime inst.launchTime,
    runningTime := calculateRunningTime (clock (2 * i)) inst.launchTime,
    hourlyCost := formatCost (hourlyCostOf env inst region),
    totalCost := formatCost
      (calculateTotalCost (clock (2 * i + 1)) (hourlyCostOf env inst region) inst.launchTime) }

/-- One row per instance, in order, from index `i` on. -/
def rowsFrom (env : Env) (clock : Nat → Int) (formatTime : Int → String) :
    Nat → List (Instance × String) → List Row
  | _, [] => []
  | i, (inst, region) :: rest =>
    rowAt env clock formatTime i inst region :: rowsFrom env clock formatTime (i + 1) rest

/-- A pricing service that answers every request with the sample document `single`. -/
def flatRateEnv : Env :=
  { getProducts := fun _ _ => Except.ok ["single"],
    unmarshal := sampleUnmarshal,
    parseFloat := sampleParseFloat }

/-- Three candidate regions: two instances, a failed listing, one instance. -/
def sampleCandidates : List (String × Client) :=
  [("us-east-1", clientWith [webServer, batchWorker]), ("eu-west-1", failingClient),
   ("ap-south-1", clientWith [webServer])]

/-- A clock that advances one minute between readings, from two hours after
the launch of the sample instances. -/
def sampleClock (k : Nat) : Int := 7200000000000 + 60000000000 * (k : Int)

/-- A stand-in for `time.Time.Format`: the nanosecond count in decimal. -/
def sampleFormatTime (t : Int) : String := toString t

/-! ## Running time as the specification words it -/

/-- The running-time string of the specification for an elapsed duration of `d`
nanoseconds: whole days, remaining whole hours, remaining whole minutes. -/
def runningTimeSpec (d : Int) : String :=
  toString (d / (24 * Hour)) ++ "d " ++ toString (d / Hour % 24) ++ "h "
    ++ toString (d / Minute % 60) ++ "m"

/-- A stopped instance whose launch time lies one microsecond after the instant 0. -/
def futureWorker : Instance :=
  { instanceId := "i-0c3", instanceType := "single", state := "stopped",
    launchTime := 1000, tags := [] }

/-! ## The region scan: expected results, invariant and measure -/

/-- The region a listing contributes to the candidates: its name when the
listing succeeded with at least one instance. -/
def candidateOfListing (rc : String × Client) : Option String :=
  match getEC2Instances rc.2 with
  | Except.error _ => none
  | Except.ok instances => if 0 < instances.length then some rc.1 else none

/-- The error a listing contributes: the error of a failed listing, naming its region. -/
def failureOfListing (rc : String × Client) : Option String :=
  match getEC2Instances rc.2 with
  | Except.error e => some (regionError rc.1 e)
  | Except.ok _ => none

/-- The input regions whose listing succeeded with at least one instance, once
per occurrence, in input order. -/
def expectedCandidates (regions : List (String × Client)) : List String :=
  regions.filterMap candidateOfListing

/-- One error per input region whose listing failed, in input order. -/
def expectedErrors (regions : List (String × Client)) : List String :=
  regions.filterMap failureOfListing

/-- The input without the regions whose listing failed. -/
def withoutFailed (regions : List (String × Client)) : List (String × Client) :=
  regions.filter (fun rc => (failureOfListing rc).isNone)

/-- How many of the goroutines `l` contribute the value `x` under `f`. -/
def tally (f : Nat → Option String) (x : String) (l : List Nat) : Nat :=
  (l.filterMap f).count x

/-- The invariant of the reachable states of `getRegionsWithInstances`. -/
structure ScanInv (regions : List (String × Client)) (s : ScanState) : Prop where
  /-- Every goroutine stands at exactly one place. -/
  pools : ∀ a, s.unspawned.count a + s.waiting.count a + s.inFlight.count a
      + s.returned.count a + s.delivered.count a + s.released.count a + s.finished.count a
      = (List.range regions.length).count a
  total : s.unspawned.length + s.waiting.length + s.inFlight.length + s.returned.length
      + s.delivered.length + s.released.length + s.finished.length = regions.length
  /-- The semaphore holds one element per goroutine between acquire and release. -/
  sem : s.semaphore = s.inFlight.length + s.returned.length + s.delivered.length
  semLe : s.semaphore ≤ concurrencyLimit
  /-- The `WaitGroup` counts the goroutines started and not done. -/
  wg : s.wg = s.waiting.length + s.inFlight.length + s.returned.length
      + s.delivered.length + s.released.length
  /-- What was received or is buffered is what the goroutines past their body sent. -/
  regs : ∀ x, s.result.count x + s.regionsChan.count x =
      tally (candidateOf regions) x s.delivered + tally (candidateOf regions) x s.released
      + tally (candidateOf regions) x s.finished
  errs : ∀ x, s.errors.count x + s.errorChan.count x =
      tally (failureOf regions) x s.delivered + tally (failureOf regions) x s.released
      + tally (failureOf regions) x s.finished
  regsLen : s.result.length + s.regionsChan.length ≤
      s.delivered.length + s.released.length + s.finished.length
  errsLen : s.errors.length + s.errorChan.length ≤
      s.delivered.length + s.released.length + s.finished.length
  spawning : s.mainPc = MainPc.spawning ↔ s.closerPc = CloserPc.notStarted
  started : s.closerPc ≠ CloserPc.notStarted → s.unspawned = []
  /-- Once `wg.Wait()` has returned every goroutine has finished. -/
  waited : s.closerPc = CloserPc.closingRegions ∨ s.closerPc = CloserPc.closingErrors
      ∨ s.closerPc = CloserPc.finished →
    s.waiting = [] ∧ s.inFlight = [] ∧ s.returned = [] ∧ s.delivered = [] ∧ s.released = []
  rclosed : s.regionsClosed = true ↔
    (s.closerPc = CloserPc.closingErrors ∨ s.closerPc = CloserPc.finished)
  eclosed : s.errorsClosed = true ↔ s.closerPc = CloserPc.finished
  mainErr : s.mainPc = MainPc.readingErrors → s.regionsClosed = true ∧ s.regionsChan = []
  mainRet : s.mainPc = MainPc.returned →
    s.errorsClosed = true ∧ s.errorChan = [] ∧ s.regionsChan = []
  errorsLate : s.mainPc = MainPc.spawning ∨ s.mainPc = MainPc.readingRegions → s.errors = []
  noPanic : s.panicked = false

/-- A bound on the number of steps left from a state. -/
def scanMeasure (s : ScanState) : Nat :=
  12 * s.unspawned.length + 10 * s.waiting.length + 8 * s.inFlight.length
    + 6 * s.returned.length + 4 * s.delivered.length + 2 * s.released.length
    + s.regionsChan.length + s.errorChan.length
    + (match s.mainPc with
       | MainPc.spawning => 3
       | MainPc.readingRegions => 2
       | MainPc.readingErrors => 1
       | MainPc.returned => 0)
    + (match s.closerPc with
       | CloserPc.notStarted => 4
       | CloserPc.waiting => 3
       | CloserPc.closingRegions => 2
       | CloserPc.closingErrors => 1
       | CloserPc.finished => 0)
    + (if s.panicked then 0 else 1)

/-! ## Sample scans -/

/-- The scan of the specification's scenario: two instances in `us-east-1`, none
in `us-west-2`, and a failing listing in `eu-west-1`. -/
def sampleRegions : List (String × Client) :=
  [("us-east-1", clientWith [webServer, batchWorker]), ("us-west-2", clientWith []),
   ("eu-west-1", failingClient)]

/-- A complete schedule of the sample scan in which the goroutines overtake
one another. -/
def sampleSchedule : List Event :=
  [Event.spawn, Event.spawn, Event.acquire 1, Event.spawn, Event.startCloser,
   Event.acquire 2, Event.acquire 0, Event.callReturns 2, Event.deliver 2,
   Event.callReturns 0, Event.deliver 0, Event.receiveRegion, Event.callReturns 1,
   Event.deliver 1, Event.release 0, Event.release 1, Event.done 1, Event.release 2,
   Event.done 0, Event.done 2, Event.waitReturns, Event.closeRegions,
   Event.regionsDrained, Event.closeErrors, Event.receiveError, Event.errorsDrained]

/-- A schedule of a scan of two regions that stops right after the calling
goroutine has received the first candidate. -/
def earlyReceiveSchedule : List Event :=
  [Event.spawn, Event.spawn, Event.startCloser, Event.acquire 0, Event.callReturns 0,
   Event.deliver 0, Event.receiveRegion]

/-- Two regions with one instance each. -/
def twoBusyRegions : List (String × Client) :=
  [("us-east-1", clientWith [webServer]), ("us-west-2", clientWith [webServer])]

/-- The state the sample schedule ends in. -/
def sampleFinal : ScanState :=
  { unspawned := [], waiting := [], inFlight := [], returned := [], delivered := [],
    released := [], finished := [2, 0, 1], semaphore := 0, wg := 0, regionsChan := [],
    regionsClosed := true, errorChan := [], errorsClosed := true,
    mainPc := MainPc.returned, closerPc := CloserPc.finished, result := ["us-east-1"],
    errors := ["failed to get EC2 instances for region eu-west-1: RequestExpired"],
    panicked := false }

/-- An instance of the type whose price document, at the sample pricing service,
has a string as its only on-demand term. -/
def oddlyPriced : Instance :=
  { instanceId := "i-0d4", instanceType := "string-term", state := "running",
    launchTime := 0, tags := [("Name", "db")] }

/-- One candidate region holding `oddlyPriced`. -/
def oddCandidates : List (String × Client) := [("us-east-1", clientWith [oddlyPriced])]

/-! # Theorems -/

/-! ## Price documents -/

theorem scanPriceDimensions_cons (parseFloat : String → Except String F64)
    (key : String) (fields : List (String × Json)) (rest : List (String × Json)) :
    scanPriceDimensions parseFloat ((key, Json.obj fields) :: rest) =
      match usdOf (Json.obj fields) with
      | some usd =>
        (match parseFloat usd with
        | Except.error e => Outcome.err ("failed to parse price: " ++ e)
        | Except.ok price => Outcome.val (some price))
      | none => scanPriceDimensions parseFloat rest := by
  rcases h1 : mapIndex "pricePerUnit" fields with _ | ppu
  · simp [scanPriceDimensions, usdOf, h1]
  · cases ppu with
    | obj pricePerUnit =>
      rcases h2 : mapIndex "USD" pricePerUnit with _ | u
      · simp [scanPriceDimensions, usdOf, h1, h2]
      · cases u <;> simp [scanPriceDimensions, usdOf, h1, h2]
    | _ => simp [scanPriceDimensions, usdOf, h1]

theorem scanPriceDimensions_eq (parseFloat : String → Except String F64)
    (dims : List (String × Json)) (h : ∀ pd ∈ dims, pd.2.isMapping = true) :
    scanPriceDimensions parseFloat dims =
      match firstUsd dims with
      | none => Outcome.val none
      | some usd =>
        match parseFloat usd with
        | Except.error e => Outcome.err ("failed to parse price: " ++ e)
        | Except.ok price => Outcome.val (some price) := by
  induction dims with
  | nil => rfl
  | cons pd rest ih =>
    obtain ⟨key, v⟩ := pd
    have hv := h (key, v) (List.mem_cons_self _ _)
    have ih' := ih (fun p hp => h p (List.mem_cons_of_mem _ hp))
    cases v with
    | obj fields =>
      rw [scanPriceDimensions_cons, ih']
      simp only [firstUsd]
      cases usdOf (Json.obj fields) <;> rfl
    | _ => simp [Json.isMapping] at hv

theorem scanOnDemand_cons (parseFloat : String → Except String F64)
    (code : String) (fields : List (String × Json)) (rest : List (String × Json)) :
    scanOnDemand parseFloat ((code, Json.obj fields) :: rest) =
      match scanPriceDimensions parseFloat (dimensionsOf (Json.obj fields)) with
      | Outcome.val (some price) => Outcome.val price
      | Outcome.val none => scanOnDemand parseFloat rest
      | Outcome.err e => Outcome.err e
      | Outcome.panic m => Outcome.panic m := by
  rcases h1 : mapIndex "priceDimensions" fields with _ | pds
  · simp [scanOnDemand, dimensionsOf, h1, scanPriceDimensions]
  · cases pds <;> simp [scanOnDemand, dimensionsOf, h1, scanPriceDimensions]

theorem scanOnDemand_eq (parseFloat : String → Except String F64)
    (onDemand : List (String × Json)) (h : ShapeSafe onDemand) :
    scanOnDemand parseFloat onDemand = outcomeOfUsd parseFloat (firstUsdOfTerms onDemand) := by
  induction onDemand with
  | nil => rfl
  | cons term rest ih =>
    obtain ⟨code, v⟩ := term
    have hv := h (code, v) (List.mem_cons_self _ _)
    have ih' := ih (fun p hp => h p (List.mem_cons_of_mem _ hp))
    cases v with
    | obj fields =>
      rw [scanOnDemand_cons, scanPriceDimensions_eq parseFloat _ hv.2, ih']
      simp only [firstUsdOfTerms]
      cases firstUsd (dimensionsOf (Json.obj fields)) with
      | none => rfl
      | some usd =>
        simp only [outcomeOfUsd]
        cases parseFloat usd <;> rfl
    | _ =>
      have h0 := hv.1
      simp [Json.isMapping] at h0

theorem priceOfDocument_eq (parseFloat : String → Except String F64)
    (doc terms onDemand : List (String × Json))
    (h1 : mapIndex "terms" doc = some (Json.obj terms))
    (h2 : mapIndex "OnDemand" terms = some (Json.obj onDemand)) :
    priceOfDocument parseFloat doc = scanOnDemand parseFloat onDemand := by
  simp [priceOfDocument, h1, h2]

theorem priceOfDocument_no_terms (parseFloat : String → Except String F64)
    (doc : List (String × Json))
    (h : ∀ terms, mapIndex "terms" doc ≠ some (Json.obj terms)) :
    priceOfDocument parseFloat doc = Outcome.err "failed to parse pricing information" := by
  unfold priceOfDocument
  split
  · rename_i terms h1
    exact absurd h1 (h terms)
  · rfl

theorem priceOfDocument_no_onDemand (parseFloat : String → Except String F64)
    (doc terms : List (String × Json))
    (h1 : mapIndex "terms" doc = some (Json.obj terms))
    (h : ∀ onDemand, mapIndex "OnDemand" terms ≠ some (Json.obj onDemand)) :
    priceOfDocument parseFloat doc =
      Outcome.err "failed to parse on-demand pricing information" := by
  unfold priceOfDocument
  simp only [h1]

/-- C4, as the code has it. An empty result set, a document that does not
unmarshal, and a document whose `terms` or `terms.OnDemand` key is absent or
holds no mapping make `getEC2InstancePrice` return an error. In a document whose
on-demand terms and price-dimension entries are all mappings, an entry without
a `priceDimensions` mapping, a `pricePerUnit` mapping or a `USD` string is
skipped: the function returns an error when no entry is left or when the first
USD string left (in iteration order) does not parse, returns the parsed price
otherwise, and does not panic. -/
theorem getEC2InstancePrice_error_cases (env : Env) (instanceType region : String) :
    (env.getProducts instanceType region = Except.ok [] →
      getEC2InstancePrice env instanceType region = Outcome.err "no pricing information found") ∧
    (∀ first rest e, env.getProducts instanceType region = Except.ok (first :: rest) →
      env.unmarshal first = Except.error e →
      getEC2InstancePrice env instanceType region =
        Outcome.err ("failed to parse pricing information: " ++ e)) ∧
    (∀ first rest doc, env.getProducts instanceType region = Except.ok (first :: rest) →
      env.unmarshal first = Except.ok doc →
      ((∀ terms, mapIndex "terms" doc ≠ some (Json.obj terms)) →
        getEC2InstancePrice env instanceType region =
          Outcome.err "failed to parse pricing information") ∧
      (∀ terms, mapIndex "terms" doc = some (Json.obj terms) →
        ((∀ onDemand, mapIndex "OnDemand" terms ≠ some (Json.obj onDemand)) →
          getEC2InstancePrice env instanceType region =
            Outcome.err "failed to parse on-demand pricing information") ∧
        (∀ onDemand, mapIndex "OnDemand" terms = some (Json.obj onDemand) →
          ShapeSafe onDemand →
          getEC2InstancePrice env instanceType region =
            outcomeOfUsd env.parseFloat (firstUsdOfTerms onDemand) ∧
          (∀ m, getEC2InstancePrice env instanceType region ≠ Outcome.panic m) ∧
          (firstUsdOfTerms onDemand = none →
            getEC2InstancePrice env instanceType region =
              Outcome.err "no valid pricing information found") ∧
          (∀ usd e, firstUsdOfTerms onDemand = some usd →
            env.parseFloat usd = Except.error e →
            getEC2InstancePrice env instanceType region =
              Outcome.err ("failed to parse price: " ++ e))))) := by
  refine ⟨?_, ?_, ?_⟩
  · intro h
    simp [getEC2InstancePrice, h]
  · intro first rest e h hu
    simp [getEC2InstancePrice, h, hu]
  · intro first rest doc h hu
    have hdoc : getEC2InstancePrice env instanceType region =
        priceOfDocument env.parseFloat doc := by
      simp [getEC2InstancePrice, h, hu]
    refine ⟨?_, ?_⟩
    · intro hterms
      rw [hdoc, priceOfDocument_no_terms _ _ hterms]
    · intro terms h1
      refine ⟨?_, ?_⟩
      · intro hod
        rw [hdoc, priceOfDocument_no_onDemand _ _ _ h1 hod]
      · intro onDemand h2 hsafe
        have hres : getEC2InstancePrice env instanceType region =
            outcomeOfUsd env.parseFloat (firstUsdOfTerms onDemand) := by
          rw [hdoc, priceOfDocument_eq _ _ _ _ h1 h2, scanOnDemand_eq _ _ hsafe]
        refine ⟨hres, ?_, ?_, ?_⟩
        · intro m
          rw [hres]
          cases firstUsdOfTerms onDemand with
          | none => simp [outcomeOfUsd]
          | some usd =>
            simp only [outcomeOfUsd]
            cases env.parseFloat usd <;> simp
        · intro hnone
          rw [hres, hnone]
          rfl
        · intro usd e hsome hparse
          rw [hres, hsome]
          simp [outcomeOfUsd, hparse]

/-- C4 at sample documents: an empty result set, a document without `terms`
and a document whose only USD string does not parse each yield an error. -/
theorem getEC2InstancePrice_error_cases_witness :
    getEC2InstancePrice sampleEnv "none" "us-east-1" =
        Outcome.err "no pricing information found" ∧
    getEC2InstancePrice sampleEnv "no-terms" "us-east-1" =
        Outcome.err "failed to parse pricing information" ∧
    getEC2InstancePrice sampleEnv "unparsable-price" "us-east-1" =
        Outcome.err "failed to parse price: strconv.ParseFloat: parsing: invalid syntax" :=
  ⟨(getEC2InstancePrice_error_cases sampleEnv "none" "us-east-1").1 rfl,
   ((getEC2InstancePrice_error_cases sampleEnv "no-terms" "us-east-1").2.2
      "no-terms" [] [("serviceCode", Json.str "AmazonEC2")] rfl rfl).1
      (by intro terms h; simp [mapIndex] at h),
   by decide⟩

/-- C4 as stated fails: in the document `two-terms` the term `A` has no
`priceDimensions` key, and `getEC2InstancePrice` returns the price of term `B`,
in whichever order the map is visited. -/
theorem getEC2InstancePrice_skips_malformed_term :
    mapIndex "priceDimensions" [("sku", Json.str "ABC")] = none ∧
    getEC2InstancePrice sampleEnv "two-terms" "us-east-1" = Outcome.val samplePrice ∧
    getEC2InstancePrice sampleEnv "two-terms-reversed" "us-east-1" = Outcome.val samplePrice :=
  ⟨rfl, by decide, by decide⟩

/-- The single-value type assertion `v.(map[string]interface{})` of the loop over
`terms.OnDemand` panics on a term that is not a mapping. -/
theorem getEC2InstancePrice_panics_on_string_term :
    getEC2InstancePrice sampleEnv "string-term" "us-east-1" = Outcome.panic conversionPanic := by
  decide

/-- C5. When the first on-demand term (in iteration order) is a mapping whose
`priceDimensions` is a mapping, and the first price-dimension entry is a mapping
whose `pricePerUnit` is a mapping with a string `s` under `USD`,
`getEC2InstancePrice` returns the number `strconv.ParseFloat` gives for `s` (or
the parse error); the term code and the price-dimension key play no part. -/
theorem getEC2InstancePrice_first_entry (env : Env) (instanceType region first : String)
    (rest : List String) (doc terms tfields restTerms pfields restDims ppu : List (String × Json))
    (termCode pdKey s : String)
    (hresp : env.getProducts instanceType region = Except.ok (first :: rest))
    (hdoc : env.unmarshal first = Except.ok doc)
    (hterms : mapIndex "terms" doc = some (Json.obj terms))
    (hod : mapIndex "OnDemand" terms = some (Json.obj ((termCode, Json.obj tfields) :: restTerms)))
    (hpd : mapIndex "priceDimensions" tfields =
      some (Json.obj ((pdKey, Json.obj pfields) :: restDims)))
    (hppu : mapIndex "pricePerUnit" pfields = some (Json.obj ppu))
    (husd : mapIndex "USD" ppu = some (Json.str s)) :
    getEC2InstancePrice env instanceType region =
      match env.parseFloat s with
      | Except.ok price => Outcome.val price
      | Except.error e => Outcome.err ("failed to parse price: " ++ e) := by
  have h1 : getEC2InstancePrice env instanceType region =
      scanOnDemand env.parseFloat ((termCode, Json.obj tfields) :: restTerms) := by
    simp [getEC2InstancePrice, hresp, hdoc, priceOfDocument, hterms, hod]
  have h2 : usdOf (Json.obj pfields) = some s := by
    simp [usdOf, hppu, husd]
  rw [h1, scanOnDemand_cons]
  simp only [dimensionsOf, hpd]
  rw [scanPriceDimensions_cons]
  simp only [h2]
  cases env.parseFloat s <;> rfl

/-- C5 at the sample document `single`: one term, one price dimension,
`USD` = "0.05". -/
theorem getEC2InstancePrice_first_entry_witness :
    getEC2InstancePrice sampleEnv "single" "us-east-1" = Outcome.val samplePrice :=
  getEC2InstancePrice_first_entry sampleEnv "single" "us-east-1" "single" []
    (sampleDocument [("A", sampleTerm "P" "0.05")])
    [("OnDemand", Json.obj [("A", sampleTerm "P" "0.05")])]
    [("priceDimensions",
        Json.obj [("P", Json.obj [("unit", Json.str "Hrs"),
                                  ("pricePerUnit", Json.obj [("USD", Json.str "0.05")])])]),
      ("sku", Json.str "ABC")]
    [] [("unit", Json.str "Hrs"), ("pricePerUnit", Json.obj [("USD", Json.str "0.05")])] []
    [("USD", Json.str "0.05")] "A" "P" "0.05" rfl rfl rfl rfl rfl rfl rfl

/-! ## Listing the instances of a region -/

theorem appendReservations_eq (instances : List Instance) (reservations : List (List Instance)) :
    appendReservations instances reservations = instances ++ reservations.flatten := by
  induction reservations generalizing instances with
  | nil => simp [appendReservations]
  | cons r rest ih => simp [appendReservations, ih]

theorem getEC2Instances_ok (client : Client) (page : DescribeInstancesOutput)
    (h : client none = Except.ok page) :
    getEC2Instances client = Except.ok page.reservations.flatten := by
  simp [getEC2Instances, h, appendReservations_eq]

/-- C7, as the code has it. `getEC2Instances` sends one request, with an empty
input. A failed request is returned as the error. A successful one yields the
instances of that response, every reservation's instances in reservation
order, and no error: when the response names no next page this is the whole
merged listing, and a response without instances gives an empty sequence. No
further page is requested: the result depends on the answer to that one
request only. -/
theorem getEC2Instances_first_page (client : Client) :
    (∀ e, client none = Except.error e → getEC2Instances client = Except.error e) ∧
    (∀ page, client none = Except.ok page →
      getEC2Instances client = Except.ok page.reservations.flatten ∧
      (page.nextToken = none →
        ∀ fuel, listAllPages client (fuel + 1) none = getEC2Instances client) ∧
      (page.reservations.flatten = [] → getEC2Instances client = Except.ok [])) ∧
    (∀ other : Client, other none = client none →
      getEC2Instances other = getEC2Instances client) := by
  refine ⟨?_, ?_, ?_⟩
  · intro e h
    simp [getEC2Instances, h]
  · intro page h
    have h1 := getEC2Instances_ok client page h
    refine ⟨h1, ?_, ?_⟩
    · intro hnone fuel
      rw [h1]
      simp [listAllPages, h, hnone]
    · intro hempty
      rw [h1, hempty]
  · intro other h
    simp [getEC2Instances, h]

/-- C7 at a region with two instances on one page, at an empty region, at a
region whose request fails, and at a region listed on two pages. -/
theorem getEC2Instances_first_page_witness :
    getEC2Instances (clientWith [webServer, batchWorker]) = Except.ok [webServer, batchWorker] ∧
    getEC2Instances (clientWith []) = Except.ok [] ∧
    getEC2Instances failingClient = Except.error "RequestExpired" ∧
    getEC2Instances twoPageClient = Except.ok [webServer] :=
  ⟨((getEC2Instances_first_page (clientWith [webServer, batchWorker])).2.1
      { reservations := [[webServer, batchWorker]], nextToken := none } rfl).1,
   ((getEC2Instances_first_page (clientWith [])).2.1
      { reservations := [[]], nextToken := none } rfl).2.2 rfl,
   (getEC2Instances_first_page failingClient).1 "RequestExpired" rfl,
   ((getEC2Instances_first_page twoPageClient).2.1
      { reservations := [[webServer]], nextToken := some "page-2" } rfl).1⟩

/-- C7 as stated fails: when the provider splits the listing into two pages,
`getEC2Instances` returns the first page only, not the merged listing. -/
theorem getEC2Instances_drops_second_page :
    getEC2Instances twoPageClient = Except.ok [webServer] ∧
    listAllPages twoPageClient 2 none = Except.ok [webServer, batchWorker] ∧
    getEC2Instances twoPageClient ≠ listAllPages twoPageClient 2 none := by
  refine ⟨rfl, rfl, ?_⟩
  intro h
  have h1 : getEC2Instances twoPageClient = Except.ok [webServer] := rfl
  have h2 : listAllPages twoPageClient 2 none = Except.ok [webServer, batchWorker] := rfl
  rw [h1, h2] at h
  simp at h

/-! ## Collecting and displaying the instances -/

theorem fillRegions_range' (r : String) (count : Nat) (pre : List String) :
    ∀ (m k : Nat), k + m = count →
      fillRegions r count (List.range' k m) (pre ++ List.replicate k r ++ List.replicate m "") =
        some (pre ++ List.replicate count r) := by
  intro m
  induction m with
  | zero =>
    intro k hk
    simp at hk
    simp [fillRegions, hk]
  | succ m ih =>
    intro k hk
    have hlen : ((pre ++ List.replicate k r ++ List.replicate (m + 1) "").length : Int)
        - (count : Int) + (k : Int) = ((pre.length + k : Nat) : Int) := by
      simp only [List.length_append, List.length_replicate]
      push_cast
      omega
    simp only [List.range'_succ, fillRegions, hlen]
    have hset : assignIndex (pre ++ List.replicate k r ++ List.replicate (m + 1) "")
        ((pre.length + k : Nat) : Int) r =
        some (pre ++ List.replicate (k + 1) r ++ List.replicate m "") := by
      unfold assignIndex
      have hlt : pre.length + k < (pre ++ List.replicate k r ++ List.replicate (m + 1) "").length := by
        simp only [List.length_append, List.length_replicate]
        omega
      rw [if_pos ⟨by omega, by exact_mod_cast hlt⟩]
      congr 1
      have hl : (pre ++ List.replicate k r).length = pre.length + k := by simp
      rw [Int.toNat_ofNat, ← hl, List.replicate_succ,
        List.set_append_right _ _ (Nat.le_refl _), Nat.sub_self, List.set_cons_zero]
      simp [List.replicate_succ', List.append_assoc]
    rw [hset]
    exact ih (k + 1) (by omega)

theorem fillRegions_range (r : String) (count : Nat) (pre : List String) :
    fillRegions r count (List.range count) (pre ++ List.replicate count "") =
      some (pre ++ List.replicate count r) := by
  have h := fillRegions_range' r count pre count 0 (by omega)
  simpa [List.range_eq_range'] using h

theorem collectAllRegions_eq (candidates : List (String × Client)) :
    ∀ (allInstances : List Instance) (instanceRegions : List String),
      collectAllRegions candidates (allInstances, instanceRegions) =
        some (allInstances ++ (taggedListing candidates).map Prod.fst,
              instanceRegions ++ (taggedListing candidates).map Prod.snd) := by
  induction candidates with
  | nil => intro a b; simp [collectAllRegions, taggedListing]
  | cons c rest ih =>
    obtain ⟨r, client⟩ := c
    intro a b
    unfold collectAllRegions
    cases h : getEC2Instances client with
    | error e =>
      simp only [ih, taggedListing, listingOf, h]
      simp
    | ok instances =>
      simp only [fillRegions_range, ih, taggedListing, listingOf, h]
      simp [Function.comp_def]

theorem estimateInstanceCost_val (env : Env) (inst : Instance) (region : String)
    (hprice : ∀ m, getEC2InstancePrice env inst.instanceType region ≠ Outcome.panic m) :
    estimateInstanceCost env inst region = Outcome.val (hourlyCostOf env inst region) := by
  unfold hourlyCostOf estimateInstanceCost
  cases h : getEC2InstancePrice env inst.instanceType region with
  | panic m => exact absurd h (hprice m)
  | err e => rfl
  | val p => by_cases hs : inst.state = InstanceStateNameStopped <;> simp [hs]

theorem displayLoop_rows (env : Env) (clock : Nat → Int) (formatTime : Int → String)
    (regions : List String)
    (hprice : ∀ instanceType region m,
      getEC2InstancePrice env instanceType region ≠ Outcome.panic m) :
    ∀ (tagged : List (Instance × String)) (i : Nat) (acc : Report),
      regions.drop i = tagged.map Prod.snd →
      ∃ report, displayLoop env clock formatTime regions i (tagged.map Prod.fst) acc =
          Outcome.val report ∧
        report.rows = acc.rows ++ rowsFrom env clock formatTime i tagged := by
  intro tagged
  induction tagged with
  | nil => intro i acc _; exact ⟨acc, by simp [displayLoop], by simp [rowsFrom]⟩
  | cons t rest ih =>
    obtain ⟨inst, r⟩ := t
    intro i acc hdrop
    have hget : regions[i]? = some r := by
      have := List.getElem?_drop regions i 0
      rw [hdrop] at this
      simpa using this.symm
    have hnext : regions.drop (i + 1) = rest.map Prod.snd := by
      have : regions.drop (i + 1) = (regions.drop i).tail := by simp
      rw [this, hdrop]
      simp
    simp only [List.map_cons, displayLoop, hget,
      estimateInstanceCost_val env inst r (hprice inst.instanceType r)]
    obtain ⟨report, h1, h2⟩ := ih (i + 1) _ hnext
    refine ⟨report, h1, ?_⟩
    rw [h2]
    simp [rowsFrom, rowAt]

theorem rowsFrom_length (env : Env) (clock : Nat → Int) (formatTime : Int → String) :
    ∀ (tagged : List (Instance × String)) (i : Nat),
      (rowsFrom env clock formatTime i tagged).length = tagged.length := by
  intro tagged
  induction tagged with
  | nil => intro i; rfl
  | cons t rest ih => intro i; obtain ⟨inst, r⟩ := t; simp [rowsFrom, ih]

theorem rowsFrom_region (env : Env) (clock : Nat → Int) (formatTime : Int → String) :
    ∀ (tagged : List (Instance × String)) (i : Nat),
      (rowsFrom env clock formatTime i tagged).map (fun row => (row.instanceId, row.region)) =
        tagged.map (fun t => (t.1.instanceId, t.2)) := by
  intro tagged
  induction tagged with
  | nil => intro i; rfl
  | cons t rest ih => intro i; obtain ⟨inst, r⟩ := t; simp [rowsFrom, rowAt, ih]

theorem taggedListing_fst (candidates : List (String × Client)) :
    (taggedListing candidates).map Prod.fst =
      (candidates.map (fun rc => listingOf rc.2)).flatten := by
  induction candidates with
  | nil => rfl
  | cons c rest ih =>
    obtain ⟨r, client⟩ := c
    simp [taggedListing, ih, Function.comp_def]

theorem displayEC2InstancesTable_rows (env : Env) (clock : Nat → Int)
    (formatTime : Int → String) (tagged : List (Instance × String))
    (hprice : ∀ instanceType region m,
      getEC2InstancePrice env instanceType region ≠ Outcome.panic m) :
    ∃ report, displayEC2InstancesTable env clock formatTime
        (tagged.map Prod.fst) (tagged.map Prod.snd) = Outcome.val report ∧
      report.rows = rowsFrom env clock formatTime 0 tagged := by
  obtain ⟨report, h1, h2⟩ := displayLoop_rows env clock formatTime (tagged.map Prod.snd) hprice
    tagged 0 { rows := [], totalHourlyCost := F64.zero, totalCost := F64.zero } (by simp)
  exact ⟨report, h1, by simpa using h2⟩

/-- The part of C9 that holds whenever every price lookup returns (a price or
an error). In the "View all regions" mode the collection loop leaves in
`allInstances` the listings of the candidate regions whose fetch succeeded,
concatenated in candidate-region order and within-region listing order, and in
`instanceRegions`, index by index, the region each instance was fetched from;
`displayEC2InstancesTable` then emits exactly one row per instance, in that
order, with the instance's own region, and never indexes `regions` out of
range. In the single-region mode the same holds with every entry equal to the
selected region. -/
theorem mainDisplay_rows (env : Env) (clock : Nat → Int) (formatTime : Int → String)
    (selected : Client) (candidates : List (String × Client))
    (hprice : ∀ instanceType region m,
      getEC2InstancePrice env instanceType region ≠ Outcome.panic m) :
    collectAllRegions candidates ([], []) =
        some ((taggedListing candidates).map Prod.fst, (taggedListing candidates).map Prod.snd) ∧
    (taggedListing candidates).map Prod.fst =
        (candidates.map (fun rc => listingOf rc.2)).flatten ∧
    (∃ report, mainDisplay env clock formatTime "View all regions" selected candidates =
          Outcome.val report ∧
        report.rows = rowsFrom env clock formatTime 0 (taggedListing candidates) ∧
        report.rows.length = (taggedListing candidates).length ∧
        report.rows.map (fun row => (row.instanceId, row.region)) =
          (taggedListing candidates).map (fun t => (t.1.instanceId, t.2))) ∧
    (∀ region instances, region ≠ "View all regions" →
      getEC2Instances selected = Except.ok instances →
      collectOneRegion region selected =
          Outcome.val (instances, List.replicate instances.length region) ∧
      ∃ report, mainDisplay env clock formatTime region selected candidates =
          Outcome.val report ∧
        report.rows = rowsFrom env clock formatTime 0 (instances.map (fun inst => (inst, region))) ∧
        report.rows.length = instances.length ∧
        report.rows.map (fun row => (row.instanceId, row.region)) =
          instances.map (fun inst => (inst.instanceId, region))) := by
  have hcollect := collectAllRegions_eq candidates [] []
  simp only [List.nil_append] at hcollect
  refine ⟨hcollect, taggedListing_fst candidates, ?_, ?_⟩
  · obtain ⟨report, h1, h2⟩ := displayEC2InstancesTable_rows env clock formatTime
      (taggedListing candidates) hprice
    refine ⟨report, ?_, h2, ?_, ?_⟩
    · simp only [mainDisplay, if_true, hcollect]
      exact h1
    · rw [h2, rowsFrom_length]
    · rw [h2, rowsFrom_region]
  · intro region instances hne hlist
    have hone : collectOneRegion region selected =
        Outcome.val (instances, List.replicate instances.length region) := by
      have hfill := fillRegions_range region instances.length []
      simp only [List.nil_append] at hfill
      simp only [collectOneRegion, hlist, hfill]
    refine ⟨hone, ?_⟩
    obtain ⟨report, h1, h2⟩ := displayEC2InstancesTable_rows env clock formatTime
      (instances.map (fun inst => (inst, region))) hprice
    have hfst : (instances.map (fun inst => (inst, region))).map Prod.fst = instances := by
      simp [Function.comp_def]
    have hsnd : (instances.map (fun inst => (inst, region))).map Prod.snd =
        List.replicate instances.length region := by
      simp [Function.comp_def, List.map_const']
    rw [hfst, hsnd] at h1
    refine ⟨report, ?_, h2, ?_, ?_⟩
    · simp only [mainDisplay, if_neg hne, hone]
      exact h1
    · rw [h2, rowsFrom_length, List.length_map]
    · rw [h2, rowsFrom_region]
      simp [Function.comp_def]

theorem flatRateEnv_price (instanceType region : String) :
    getEC2InstancePrice flatRateEnv instanceType region = Outcome.val samplePrice := by
  have h : sampleUnmarshal "single" = Except.ok (sampleDocument [("A", sampleTerm "P" "0.05")]) :=
    rfl
  simp only [getEC2InstancePrice, flatRateEnv, h]
  decide

/-- Three candidate regions, the second of which fails to list: three
rows, two from `us-east-1` and one from `ap-south-1`. -/
theorem mainDisplay_rows_witness :
    ∃ report, mainDisplay flatRateEnv sampleClock sampleFormatTime "View all regions"
        failingClient sampleCandidates = Outcome.val report ∧
      report.rows.map (fun row => (row.instanceId, row.region)) =
        [("i-0a1", "us-east-1"), ("i-0b2", "us-east-1"), ("i-0a1", "ap-south-1")] := by
  obtain ⟨report, h1, _, _, h4⟩ :=
    (mainDisplay_rows flatRateEnv sampleClock sampleFormatTime failingClient sampleCandidates
      (fun instanceType region m h => by
        rw [flatRateEnv_price] at h
        cases h)).2.2.1
  exact ⟨report, h1, by rw [h4]; rfl⟩

/-! ## float64: magnitude bounds -/

theorem bitLenAux_zero (fuel : Nat) : bitLenAux fuel 0 = 0 := by
  cases fuel <;> simp [bitLenAux]

theorem bitLenAux_spec : ∀ (fuel n : Nat), n ≤ fuel →
    n < 2 ^ bitLenAux fuel n ∧ (0 < n → 2 ^ bitLenAux fuel n ≤ 2 * n) := by
  intro fuel
  induction fuel with
  | zero =>
    intro n hn
    have : n = 0 := by omega
    subst this
    simp [bitLenAux]
  | succ fuel ih =>
    intro n hn
    by_cases h0 : n = 0
    · subst h0
      simp [bitLenAux]
    · have hhalf : n / 2 ≤ fuel := by omega
      obtain ⟨h1, h2⟩ := ih (n / 2) hhalf
      simp only [bitLenAux, h0, if_false, pow_succ]
      constructor
      · omega
      · intro _
        by_cases hz : n / 2 = 0
        · rw [hz, bitLenAux_zero]
          omega
        · have := h2 (by omega)
          omega

theorem bitLen_lt (n : Nat) : n < 2 ^ bitLen n :=
  (bitLenAux_spec n n (Nat.le_refl n)).1

theorem pow_bitLen_le (n : Nat) (h : 0 < n) : 2 ^ bitLen n ≤ 2 * n :=
  (bitLenAux_spec n n (Nat.le_refl n)).2 h

theorem bitLen_zero : bitLen 0 = 0 := rfl

theorem bitLen_le_of_lt (n j : Nat) (h : n < 2 ^ j) : bitLen n ≤ j := by
  by_cases h0 : n = 0
  · subst h0
    simp [bitLen_zero]
  · by_contra hlt
    have h1 := pow_bitLen_le n (by omega)
    have h2 : 2 ^ (j + 1) ≤ 2 ^ bitLen n := Nat.pow_le_pow_right (by omega) (by omega)
    rw [pow_succ] at h2
    omega

theorem lt_bitLen_of_le (n j : Nat) (h : 2 ^ j ≤ n) : j < bitLen n := by
  by_contra hlt
  have h1 := bitLen_lt n
  have h2 : 2 ^ bitLen n ≤ 2 ^ j := Nat.pow_le_pow_right (by omega) (by omega)
  omega

theorem bitLen_mono (a b : Nat) (h : a ≤ b) : bitLen a ≤ bitLen b :=
  bitLen_le_of_lt a (bitLen b) (Nat.lt_of_le_of_lt h (bitLen_lt b))

theorem bitLen_mul_pow (n j : Nat) (h : 0 < n) : bitLen (n * 2 ^ j) = bitLen n + j := by
  apply Nat.le_antisymm
  · apply bitLen_le_of_lt
    rw [pow_add]
    exact Nat.mul_lt_mul_of_pos_right (bitLen_lt n) (by positivity)
  · have h1 := pow_bitLen_le n h
    have hpos : 0 < bitLen n := by
      have := lt_bitLen_of_le n 0 (by simpa using h)
      omega
    have h2 : 2 ^ (bitLen n - 1 + j) ≤ n * 2 ^ j := by
      rw [pow_add]
      apply Nat.mul_le_mul_right
      have : 2 ^ bitLen n = 2 * 2 ^ (bitLen n - 1) := by
        conv => lhs; rw [show bitLen n = (bitLen n - 1) + 1 by omega, pow_succ]
        ring
      omega
    have := lt_bitLen_of_le _ _ h2
    omega

theorem roundNearestEven_le (n d : Nat) : roundNearestEven n d ≤ n / d + 1 := by
  unfold roundNearestEven
  simp only
  split
  · omega
  · split
    · omega
    · split <;> omega

theorem bitLen_div_succ (n d : Nat) (hd : 0 < d) :
    (bitLen (n / d + 1) : Int) ≤ max ((bitLen n : Int) - (bitLen d : Int) + 2) 1 := by
  by_cases hq : n / d = 0
  · rw [hq]
    have : bitLen (0 + 1) = 1 := rfl
    rw [this]
    simp
  · have hdn : d ≤ n := by
      by_contra hlt
      exact hq (Nat.div_eq_of_lt (by omega))
    have h1 := bitLen_lt n
    have h2 := pow_bitLen_le d hd
    have hle : bitLen d ≤ bitLen n := bitLen_mono d n hdn
    have hdpos : 0 < bitLen d := by
      have := lt_bitLen_of_le d 0 (by simpa using hd)
      omega
    have hlt : n / d + 1 < 2 ^ (bitLen n - bitLen d + 2) := by
      have hpow : 2 ^ bitLen n = 2 ^ (bitLen n - bitLen d + 1) * 2 ^ (bitLen d - 1) := by
        rw [← pow_add]
        congr 1
        omega
      have hd2 : 2 ^ (bitLen d - 1) ≤ d := by
        have : 2 ^ bitLen d = 2 * 2 ^ (bitLen d - 1) := by
          conv => lhs; rw [show bitLen d = (bitLen d - 1) + 1 by omega, pow_succ]
          ring
        omega
      have hdiv : n / d < 2 ^ (bitLen n - bitLen d + 1) := by
        rw [Nat.div_lt_iff_lt_mul hd]
        calc n < 2 ^ (bitLen n - bitLen d + 1) * 2 ^ (bitLen d - 1) := by rw [← hpow]; exact h1
          _ ≤ 2 ^ (bitLen n - bitLen d + 1) * d := Nat.mul_le_mul_left _ hd2
      have : 2 ^ (bitLen n - bitLen d + 2) = 2 * 2 ^ (bitLen n - bitLen d + 1) := by
        rw [pow_succ]; ring
      generalize n / d = k at hdiv ⊢
      omega
    have := bitLen_le_of_lt _ _ hlt
    omega

theorem floorLog2Ratio_bounds (n d : Nat) :
    (bitLen n : Int) - (bitLen d : Int) - 1 ≤ floorLog2Ratio n d ∧
    floorLog2Ratio n d ≤ (bitLen n : Int) - (bitLen d : Int) := by
  unfold floorLog2Ratio
  simp only
  split <;> omega

theorem scaledRound_bitLen (n d : Nat) (q : Int) (hn : 0 < n) (hd : 0 < d) :
    (bitLen (scaledRound n d q) : Int) ≤
      max ((bitLen n : Int) - (bitLen d : Int) - q + 2) 1 := by
  unfold scaledRound
  split
  · rename_i hq
    have h1 := bitLen_mono _ _ (roundNearestEven_le n (d * 2 ^ q.toNat))
    have h2 := bitLen_div_succ n (d * 2 ^ q.toNat) (by positivity)
    rw [bitLen_mul_pow d q.toNat hd] at h2
    have h3 : ((q.toNat : Nat) : Int) = q := Int.toNat_of_nonneg hq
    push_cast at h2
    omega
  · rename_i hq
    have h1 := bitLen_mono _ _ (roundNearestEven_le (n * 2 ^ (-q).toNat) d)
    have h2 := bitLen_div_succ (n * 2 ^ (-q).toNat) d hd
    rw [bitLen_mul_pow n (-q).toNat hn] at h2
    have h3 : (((-q).toNat : Nat) : Int) = -q := Int.toNat_of_nonneg (by omega)
    push_cast at h2
    omega

theorem pack_below (neg : Bool) (k : Nat) (q t : Int) (hq : q ≤ 970)
    (hk : k = 0 ∨ (bitLen k : Int) + q ≤ t) :
    ∃ m e, F64.pack neg k q = F64.fin neg m e ∧ (m = 0 ∨ (bitLen m : Int) + e ≤ t) := by
  unfold F64.pack
  by_cases h0 : k = 0
  · exact ⟨0, 0, by simp [h0], Or.inl rfl⟩
  · rw [if_neg h0]
    have hk' : (bitLen k : Int) + q ≤ t := by
      rcases hk with h | h
      · exact absurd h h0
      · exact h
    by_cases h53 : k = 2 ^ 53
    · rw [if_pos h53, if_neg (by omega)]
      refine ⟨2 ^ 52, q + 1, rfl, Or.inr ?_⟩
      have e1 : bitLen (2 ^ 52) = 53 := by
        have := bitLen_mul_pow 1 52 (by omega)
        simpa [show bitLen 1 = 1 from rfl, Nat.add_comm] using this
      have e2 : bitLen k = 54 := by
        rw [h53]
        have := bitLen_mul_pow 1 53 (by omega)
        simpa [show bitLen 1 = 1 from rfl, Nat.add_comm] using this
      rw [e1]
      rw [e2] at hk'
      push_cast at hk' ⊢
      omega
    · rw [if_neg h53, if_neg (by omega)]
      exact ⟨k, q, rfl, Or.inr hk'⟩

theorem ofRatio_below (neg : Bool) (n d : Nat) (t : Int) (hd : d ≠ 0)
    (ht : n = 0 ∨ (bitLen n : Int) - (bitLen d : Int) ≤ t) (h1 : -1075 ≤ t) (h2 : t ≤ 1022) :
    ∃ m e, F64.ofRatio neg n d = F64.fin neg m e ∧ (m = 0 ∨ (bitLen m : Int) + e ≤ t + 2) := by
  unfold F64.ofRatio
  by_cases hn : n = 0
  · exact ⟨0, 0, by simp [hn], Or.inl rfl⟩
  · rw [if_neg (by simp [hn, hd])]
    simp only
    have ht' : (bitLen n : Int) - (bitLen d : Int) ≤ t := by
      rcases ht with h | h
      · exact absurd h hn
      · exact h
    obtain ⟨hf1, hf2⟩ := floorLog2Ratio_bounds n d
    have hs := scaledRound_bitLen n d (max (floorLog2Ratio n d) (-1022) - 52)
      (by omega) (by omega)
    apply pack_below
    · omega
    · right
      omega

theorem ofRatio_sign (neg : Bool) (n d : Nat) (m : Nat) (e : Int) (s : Bool)
    (h : F64.ofRatio neg n d = F64.fin s m e) : s = neg := by
  unfold F64.ofRatio at h
  split at h
  · cases h; rfl
  · simp only [F64.pack] at h
    split at h
    · cases h; rfl
    · split at h
      · split at h
        · cases h
        · cases h; rfl
      · split at h
        · cases h
        · cases h; rfl

theorem ofScaled_below (neg : Bool) (n d : Nat) (e t : Int) (hd : d ≠ 0)
    (ht : n = 0 ∨ (bitLen n : Int) - (bitLen d : Int) + e ≤ t) (h1 : -1075 ≤ t) (h2 : t ≤ 1022) :
    ∃ m e', F64.ofScaled neg n d e = F64.fin neg m e' ∧
      (m = 0 ∨ (bitLen m : Int) + e' ≤ t + 2) := by
  unfold F64.ofScaled
  split
  · rename_i he
    apply ofRatio_below neg _ d t hd _ h1 h2
    rcases ht with h | h
    · left; simp [h]
    · by_cases hn : n = 0
      · left; simp [hn]
      · right
        rw [bitLen_mul_pow n e.toNat (by omega)]
        have : ((e.toNat : Nat) : Int) = e := Int.toNat_of_nonneg he
        push_cast
        omega
  · rename_i he
    apply ofRatio_below neg n _ t _ _ h1 h2
    · have : 0 < d * 2 ^ (-e).toNat := by positivity
      omega
    · rcases ht with h | h
      · left; exact h
      · right
        rw [bitLen_mul_pow d (-e).toNat (by omega)]
        have : (((-e).toNat : Nat) : Int) = -e := Int.toNat_of_nonneg (by omega)
        push_cast
        omega

theorem ofInt_below (i : Int) (j : Nat) (h : i.natAbs < 2 ^ j) (hj : j ≤ 1000) :
    ∃ m e, F64.ofInt i = F64.fin (decide (i < 0)) m e ∧
      (m = 0 ∨ (bitLen m : Int) + e ≤ (j : Int) + 1) := by
  unfold F64.ofInt
  have hb := bitLen_le_of_lt _ _ h
  have h1 : bitLen 1 = 1 := rfl
  obtain ⟨m, e, h3, h4⟩ := ofRatio_below (decide (i < 0)) i.natAbs 1 ((j : Int) - 1) (by omega)
    (Or.inr (by rw [h1]; push_cast; omega)) (by omega) (by omega)
  refine ⟨m, e, h3, ?_⟩
  rcases h4 with h | h
  · left; exact h
  · right; omega

theorem bitLen_add_le (a b : Nat) : bitLen (a + b) ≤ max (bitLen a) (bitLen b) + 1 := by
  apply bitLen_le_of_lt
  have ha := bitLen_lt a
  have hb := bitLen_lt b
  have h1 : 2 ^ bitLen a ≤ 2 ^ max (bitLen a) (bitLen b) :=
    Nat.pow_le_pow_right (by omega) (le_max_left _ _)
  have h2 : 2 ^ bitLen b ≤ 2 ^ max (bitLen a) (bitLen b) :=
    Nat.pow_le_pow_right (by omega) (le_max_right _ _)
  rw [pow_succ]
  omega

theorem div_below (na nb : Bool) (ma mb : Nat) (ea eb ta tb : Int) (hmb : mb ≠ 0)
    (ha : ma = 0 ∨ (bitLen ma : Int) + ea ≤ ta) (hb : tb ≤ (bitLen mb : Int) + eb)
    (h1 : -1075 ≤ ta - tb) (h2 : ta - tb ≤ 1022) :
    ∃ m e, F64.div (F64.fin na ma ea) (F64.fin nb mb eb) = F64.fin (xor na nb) m e ∧
      (m = 0 ∨ (bitLen m : Int) + e ≤ ta - tb + 2) := by
  simp only [F64.div, if_neg hmb]
  apply ofScaled_below _ _ _ _ _ hmb _ h1 h2
  rcases ha with h | h
  · left; exact h
  · right; omega

theorem add_below (na nb : Bool) (ma mb : Nat) (ea eb ta tb t : Int)
    (ha : ma = 0 ∨ (bitLen ma : Int) + ea ≤ ta) (hb : mb = 0 ∨ (bitLen mb : Int) + eb ≤ tb)
    (hta : ta ≤ t) (htb : tb ≤ t) (h1 : -1075 ≤ t) (h2 : t ≤ 1022) :
    ∃ s m e, F64.add (F64.fin na ma ea) (F64.fin nb mb eb) = F64.fin s m e ∧
      (m = 0 ∨ (bitLen m : Int) + e ≤ t + 2) ∧ (na = false → nb = false → s = false) := by
  simp only [F64.add]
  generalize hX : ma * 2 ^ (ea - min ea eb).toNat = X
  generalize hY : mb * 2 ^ (eb - min ea eb).toNat = Y
  have hXb : X = 0 ∨ (bitLen X : Int) + min ea eb ≤ ta := by
    by_cases h0 : ma = 0
    · left; rw [← hX, h0]; simp
    · right
      rw [← hX, bitLen_mul_pow ma _ (by omega)]
      have : (((ea - min ea eb).toNat : Nat) : Int) = ea - min ea eb :=
        Int.toNat_of_nonneg (by omega)
      rcases ha with h | h
      · exact absurd h h0
      · push_cast; omega
  have hYb : Y = 0 ∨ (bitLen Y : Int) + min ea eb ≤ tb := by
    by_cases h0 : mb = 0
    · left; rw [← hY, h0]; simp
    · right
      rw [← hY, bitLen_mul_pow mb _ (by omega)]
      have : (((eb - min ea eb).toNat : Nat) : Int) = eb - min ea eb :=
        Int.toNat_of_nonneg (by omega)
      rcases hb with h | h
      · exact absurd h h0
      · push_cast; omega
  generalize hS : ((if na = true then (-1 : Int) else 1) * (X : Int) +
    (if nb = true then (-1 : Int) else 1) * (Y : Int)) = S
  by_cases hs : S = 0
  · rw [if_pos hs]
    exact ⟨na && nb, 0, 0, rfl, Or.inl rfl, by intro h1 h2; simp [h1, h2]⟩
  rw [if_neg hs]
  have hSle : S.natAbs ≤ X + Y := by
    rw [← hS]
    refine le_trans (Int.natAbs_add_le _ _) ?_
    rw [Int.natAbs_mul, Int.natAbs_mul]
    cases na <;> cases nb <;> simp
  have hbit : (bitLen S.natAbs : Int) - (bitLen 1 : Int) + min ea eb ≤ t := by
    have hmono := bitLen_mono _ _ hSle
    have hadd := bitLen_add_le X Y
    have h1 : bitLen 1 = 1 := rfl
    rw [h1]
    rcases hXb with hx | hx
    · rcases hYb with hy | hy
      · exfalso
        apply hs
        rw [← hS, hx, hy]
        simp
      · rw [hx] at hmono
        simp only [Nat.zero_add] at hmono
        push_cast
        omega
    · rcases hYb with hy | hy
      · rw [hy] at hmono
        simp only [Nat.add_zero] at hmono
        push_cast
        omega
      · push_cast at hadd ⊢
        omega
  obtain ⟨m, e, h3, h4⟩ := ofScaled_below (decide (S < 0)) S.natAbs 1 (min ea eb) t
    (by omega) (Or.inr hbit) h1 h2
  refine ⟨decide (S < 0), m, e, h3, h4, ?_⟩
  intro hna hnb
  rw [← hS, hna, hnb]
  simp
  omega

/-! ## Durations and costs -/

theorem hour_parts_bounds (d : Int) (h1 : -(2 : Int) ^ 63 ≤ d) (h2 : d < (2 : Int) ^ 63) :
    (Int.tdiv d Hour).natAbs < 2 ^ 22 ∧ (Int.tmod d Hour).natAbs < 2 ^ 42 ∧
    (0 ≤ d → 0 ≤ Int.tdiv d Hour ∧ 0 ≤ Int.tmod d Hour) := by
  norm_num at h1 h2
  have hmod : Int.tmod d Hour = d - Hour * Int.tdiv d Hour := Int.tmod_def d Hour
  rcases le_or_lt 0 d with hd | hd
  · have hq : Int.tdiv d Hour = d / Hour := Int.tdiv_eq_ediv hd (by decide)
    rw [hmod, hq]
    unfold Hour
    norm_num
    omega
  · have hq : Int.tdiv d Hour = -((-d) / Hour) := by
      have e : d = -(-d) := by omega
      conv => lhs; rw [e, Int.neg_tdiv, Int.tdiv_eq_ediv (by omega) (by decide)]
    rw [hmod, hq]
    unfold Hour
    norm_num
    omega

theorem ofScaled_zero (neg : Bool) (d : Nat) (e : Int) :
    F64.ofScaled neg 0 d e = F64.fin neg 0 0 := by
  unfold F64.ofScaled
  split <;> simp [F64.ofRatio]

set_option maxRecDepth 100000 in
theorem ofInt_hour : F64.ofInt 3600000000000 = F64.fin false 7372800000000000 (-11) := by
  decide

set_option maxRecDepth 100000 in
theorem bitLen_hour_mantissa : bitLen 7372800000000000 = 53 := by
  decide

theorem durationHours_finite (d : Int) (h1 : -(2 : Int) ^ 63 ≤ d) (h2 : d < (2 : Int) ^ 63) :
    ∃ s m e, durationHours d = F64.fin s m e ∧ (0 ≤ d → s = false) := by
  obtain ⟨hh, hn, hsign⟩ := hour_parts_bounds d h1 h2
  obtain ⟨mA, eA, hA, hAb⟩ := ofInt_below (Int.tdiv d Hour) 22 hh (by omega)
  obtain ⟨mN, eN, hN, hNb⟩ := ofInt_below (Int.tmod d Hour) 42 hn (by omega)
  obtain ⟨mB, eB, hB, hBb⟩ := div_below (decide (Int.tmod d Hour < 0)) false mN
    7372800000000000 eN (-11) 43 42 (by omega) hNb (by rw [bitLen_hour_mantissa]; norm_num)
    (by omega) (by omega)
  obtain ⟨s, m, e, hS, _, hs⟩ := add_below (decide (Int.tdiv d Hour < 0))
    (xor (decide (Int.tmod d Hour < 0)) false) mA mB eA eB 23 3 23 hAb hBb (by omega) (by omega)
    (by omega) (by omega)
  refine ⟨s, m, e, ?_, ?_⟩
  · simp only [durationHours]
    rw [hA, hN, ofInt_hour, hB, hS]
  · intro hd
    obtain ⟨ha, hb⟩ := hsign hd
    apply hs
    · simp; omega
    · simp; omega

theorem timeSince_range (now t : Int) :
    -(2 : Int) ^ 63 ≤ timeSince now t ∧ timeSince now t < (2 : Int) ^ 63 ∧
    (t ≤ now → 0 ≤ timeSince now t) := by
  unfold timeSince
  norm_num
  split_ifs <;> omega

theorem calculateTotalCost_zero (now launchTime : Int) :
    ∃ s, calculateTotalCost now F64.zero launchTime = F64.fin s 0 0 ∧
      (launchTime ≤ now → s = false) := by
  obtain ⟨hr1, hr2, hr3⟩ := timeSince_range now launchTime
  obtain ⟨s, m, e, hH, hs⟩ := durationHours_finite (timeSince now launchTime) hr1 hr2
  refine ⟨s, ?_, fun h => hs (hr3 h)⟩
  simp only [calculateTotalCost, hH, F64.zero, F64.mul, Nat.zero_mul, ofScaled_zero]
  simp

theorem formatCost_zero : formatCost (F64.fin false 0 0) = "$0.0000" := by
  decide

/-- C1, as the code has it. For an instance whose state is `stopped`, whatever
the price lookup returns (a quote such as 0.05, or an error),
`estimateInstanceCost` returns the hourly cost 0, shown as `$0.0000`; for every
launch time `calculateTotalCost` applied to it returns a zero; and for a launch
time not after the clock reading the accumulated cost is shown as `$0.0000`. -/
theorem stopped_instance_costs (env : Env) (inst : Instance) (region : String)
    (now launchTime : Int) (hstopped : inst.state = InstanceStateNameStopped)
    (hquote : ∀ m, getEC2InstancePrice env inst.instanceType region ≠ Outcome.panic m) :
    estimateInstanceCost env inst region = Outcome.val F64.zero ∧
    formatCost F64.zero = "$0.0000" ∧
    (calculateTotalCost now F64.zero launchTime).isZero = true ∧
    (launchTime ≤ now → formatCost (calculateTotalCost now F64.zero launchTime) = "$0.0000") := by
  obtain ⟨s, hs, hsign⟩ := calculateTotalCost_zero now launchTime
  refine ⟨?_, formatCost_zero, ?_, ?_⟩
  · unfold estimateInstanceCost
    cases h : getEC2InstancePrice env inst.instanceType region with
    | panic m => exact absurd h (hquote m)
    | err e => rfl
    | val p => simp [hstopped]
  · rw [hs]
    rfl
  · intro h
    rw [hs, hsign h]
    exact formatCost_zero

set_option maxRecDepth 100000 in
/-- C1 at the stopped sample instance, quoted at 0.05, two hours after launch. -/
theorem stopped_instance_costs_witness :
    getEC2InstancePrice flatRateEnv batchWorker.instanceType "us-east-1" =
        Outcome.val samplePrice ∧
    estimateInstanceCost flatRateEnv batchWorker "us-east-1" = Outcome.val F64.zero ∧
    formatCost (calculateTotalCost 7200000000000 F64.zero batchWorker.launchTime) = "$0.0000" :=
  have h := stopped_instance_costs flatRateEnv batchWorker "us-east-1" 7200000000000
    batchWorker.launchTime rfl
    (fun m h => by rw [flatRateEnv_price] at h; cases h)
  ⟨flatRateEnv_price _ _, h.1, h.2.2.2 (by decide)⟩

set_option maxRecDepth 100000 in
/-- C1 as stated fails for a launch time after the clock reading: the elapsed
hours are negative, zero times a negative number is the negative zero, and the
row shows `$-0.0000` as accumulated cost. -/
theorem stopped_instance_future_launch :
    estimateInstanceCost flatRateEnv futureWorker "us-east-1" = Outcome.val F64.zero ∧
    calculateTotalCost 0 F64.zero futureWorker.launchTime = F64.fin true 0 0 ∧
    formatCost (calculateTotalCost 0 F64.zero futureWorker.launchTime) = "$-0.0000" ∧
    (match displayEC2InstancesTable flatRateEnv (fun _ => 0) sampleFormatTime [futureWorker]
        ["us-east-1"] with
      | Outcome.val report => report.rows.map (fun row => (row.hourlyCost, row.totalCost))
      | _ => []) = [("$0.0000", "$-0.0000")] := by
  decide

/-- C8. When the price lookup returns an error, `estimateInstanceCost` returns
the hourly cost 0 (it neither fails nor panics), and the accumulated cost
computed from it is zero for every launch time; when the lookup returns a price
and the instance is not stopped, the hourly cost is that price unchanged. -/
theorem estimateInstanceCost_lookup (env : Env) (inst : Instance) (region : String) :
    (∀ e, getEC2InstancePrice env inst.instanceType region = Outcome.err e →
      estimateInstanceCost env inst region = Outcome.val F64.zero ∧
      ∀ now launchTime, (calculateTotalCost now F64.zero launchTime).isZero = true) ∧
    (∀ price, getEC2InstancePrice env inst.instanceType region = Outcome.val price →
      inst.state ≠ InstanceStateNameStopped →
      estimateInstanceCost env inst region = Outcome.val price) := by
  constructor
  · intro e h
    refine ⟨by simp [estimateInstanceCost, h], ?_⟩
    intro now launchTime
    obtain ⟨s, hs, _⟩ := calculateTotalCost_zero now launchTime
    rw [hs]
    rfl
  · intro price h hstate
    simp [estimateInstanceCost, h, hstate]

set_option maxRecDepth 100000 in
/-- C8 at the sample pricing service: the lookup for the type `down` fails and
the hourly cost is 0; the lookup for the running `webServer` gives 0.05 and the
hourly cost is 0.05. -/
theorem estimateInstanceCost_lookup_witness :
    estimateInstanceCost sampleEnv { webServer with instanceType := "down" } "us-east-1" =
        Outcome.val F64.zero ∧
    (calculateTotalCost 7200000000000 F64.zero 0).isZero = true ∧
    estimateInstanceCost sampleEnv webServer "us-east-1" = Outcome.val samplePrice :=
  have h1 := (estimateInstanceCost_lookup sampleEnv { webServer with instanceType := "down" }
    "us-east-1").1 "failed to get pricing information: connection refused" (by decide)
  have h2 := (estimateInstanceCost_lookup sampleEnv webServer "us-east-1").2 samplePrice
    (by decide) (by decide)
  ⟨h1.1, h1.2 7200000000000 0, h2⟩

set_option maxRecDepth 100000 in
/-- C6 on the code: 171 days less one nanosecond after launch, `Duration.Hours`
rounds to 4104.0 and `calculateRunningTime` prints `171d 0h 59m`, where whole
days, remaining hours and remaining minutes are `170d 23h 59m`. -/
theorem calculateRunningTime_rounds_up :
    calculateRunningTime 14774399999999999 0 = "171d 0h 59m" ∧
    runningTimeSpec 14774399999999999 = "170d 23h 59m" ∧
    durationHours 14774399999999999 = F64.ofInt 4104 := by
  decide

set_option maxRecDepth 100000 in
/-- The running time 2 days, 3 hours and 45 minutes after launch. -/
theorem calculateRunningTime_example :
    calculateRunningTime 186300000000000 0 = "2d 3h 45m" ∧
    runningTimeSpec 186300000000000 = "2d 3h 45m" := by
  decide

/-! ## The region scan -/

theorem tally_nil (f : Nat → Option String) (x : String) : tally f x [] = 0 := rfl

theorem tally_cons (f : Nat → Option String) (x : String) (i : Nat) (l : List Nat) :
    tally f x (i :: l) = (if f i = some x then 1 else 0) + tally f x l := by
  unfold tally
  cases h : f i with
  | none => simp [List.filterMap_cons, h]
  | some y =>
    simp only [List.filterMap_cons, h, List.count_cons, Option.some.injEq]
    by_cases hy : y = x
    · simp [hy]
      omega
    · simp [hy]

theorem tally_erase (f : Nat → Option String) (x : String) (i : Nat) (l : List Nat)
    (h : i ∈ l) : tally f x (l.erase i) + (if f i = some x then 1 else 0) = tally f x l := by
  induction l with
  | nil => simp at h
  | cons a l ih =>
    by_cases ha : a = i
    · subst ha
      rw [List.erase_cons_head, tally_cons]
      omega
    · have hmem : i ∈ l := by
        rcases List.mem_cons.mp h with h1 | h1
        · exact absurd h1.symm ha
        · exact h1
      rw [List.erase_cons_tail (by simpa using ha), tally_cons, tally_cons]
      have := ih hmem
      omega

theorem count_erase_add (a i : Nat) (l : List Nat) (h : i ∈ l) :
    (l.erase i).count a + (if i = a then 1 else 0) = l.count a := by
  induction l with
  | nil => simp at h
  | cons b l ih =>
    by_cases hb : b = i
    · subst hb
      rw [List.erase_cons_head, List.count_cons]
      simp only [beq_iff_eq]
    · have hmem : i ∈ l := by
        rcases List.mem_cons.mp h with h1 | h1
        · exact absurd h1.symm hb
        · exact h1
      rw [List.erase_cons_tail (by simpa using hb), List.count_cons, List.count_cons]
      have := ih hmem
      omega

theorem length_erase_add (i : Nat) (l : List Nat) (h : i ∈ l) :
    (l.erase i).length + 1 = l.length := by
  rw [List.length_erase_of_mem h]
  have := List.length_pos_of_mem h
  omega

theorem failureOf_candidateOf (regions : List (String × Client)) (i : Nat) (e : String)
    (h : failureOf regions i = some e) : candidateOf regions i = none := by
  unfold failureOf at h
  unfold candidateOf
  cases hr : regions[i]? with
  | none => rfl
  | some rc =>
    obtain ⟨r, c⟩ := rc
    simp only [hr] at h
    cases hc : getEC2Instances c with
    | error e' => simp [hc]
    | ok l => simp [hc] at h

theorem scanInit_inv (regions : List (String × Client)) : ScanInv regions (scanInit regions) := by
  refine { pools := ?_, total := ?_, sem := ?_, semLe := ?_, wg := ?_, regs := ?_, errs := ?_,
           regsLen := ?_, errsLen := ?_, spawning := ?_, started := ?_, waited := ?_,
           rclosed := ?_, eclosed := ?_, mainErr := ?_, mainRet := ?_, errorsLate := ?_,
           noPanic := ?_ } <;> simp [scanInit, tally_nil, concurrencyLimit]

theorem scanStepLive_inv (regions : List (String × Client)) (s s' : ScanState) (e : Event)
    (h : ScanInv regions s) (hstep : scanStepLive regions s e = some s') :
    ScanInv regions s' := by
  obtain ⟨pools, total, sem, semLe, wg, regs, errs, regsLen, errsLen, spawning, started,
    waited, rclosed, eclosed, mainErr, mainRet, errorsLate, noPanic⟩ := h
  cases e with
  | spawn =>
    simp only [scanStepLive] at hstep
    split at hstep
    · rename_i i rest hm hu
      cases hstep
      have hc : s.closerPc = CloserPc.notStarted := spawning.mp hm
      refine { pools := ?pools_1, total := ?total_1, sem := ?sem_1, semLe := ?semLe_1, wg := ?wg_1,
               regs := ?regs_1, errs := ?errs_1, regsLen := ?regsLen_1, errsLen := ?errsLen_1,
               spawning := ?spawning_1, started := ?started_1, waited := ?waited_1,
               rclosed := ?rclosed_1, eclosed := ?eclosed_1, mainErr := ?mainErr_1,
               mainRet := ?mainRet_1, errorsLate := ?errorsLate_1, noPanic := ?noPanic_1 }
        <;> dsimp only <;> try assumption
      case pools_1 =>
        intro a
        have := pools a
        rw [hu] at this
        simp only [List.count_cons] at this ⊢
        omega
      case total_1 =>
        rw [hu] at total
        simp only [List.length_cons] at total ⊢
        omega
      case wg_1 =>
        try simp only [List.length_cons]
        omega
      case started_1 =>
        intro hne
        exact absurd hc hne
      case waited_1 =>
        intro hw
        rw [hc] at hw
        simp at hw
    · cases hstep
  | startCloser =>
    simp only [scanStepLive] at hstep
    split at hstep
    · rename_i hm hu
      cases hstep
      have hc : s.closerPc = CloserPc.notStarted := spawning.mp hm
      refine { pools := ?pools_2, total := ?total_2, sem := ?sem_2, semLe := ?semLe_2, wg := ?wg_2,
               regs := ?regs_2, errs := ?errs_2, regsLen := ?regsLen_2, errsLen := ?errsLen_2,
               spawning := ?spawning_2, started := ?started_2, waited := ?waited_2,
               rclosed := ?rclosed_2, eclosed := ?eclosed_2, mainErr := ?mainErr_2,
               mainRet := ?mainRet_2, errorsLate := ?errorsLate_2, noPanic := ?noPanic_2 }
        <;> dsimp only <;> try assumption
      case spawning_2 => simp
      case started_2 => intro _; exact hu
      case waited_2 => intro hw; simp at hw
      case rclosed_2 =>
        rw [hc] at rclosed
        simpa using rclosed
      case eclosed_2 =>
        rw [hc] at eclosed
        simpa using eclosed
      case mainErr_2 => intro hw; simp at hw
      case mainRet_2 => intro hw; simp at hw
      case errorsLate_2 => intro _; exact errorsLate (Or.inl hm)
    · cases hstep
  | acquire i =>
    simp only [scanStepLive] at hstep
    split at hstep
    · rename_i hg
      obtain ⟨hmem, hlt⟩ := hg
      cases hstep
      have hcnt := fun a => count_erase_add a i s.waiting hmem
      have hlen := length_erase_add i s.waiting hmem
      have hne : s.waiting ≠ [] := List.ne_nil_of_mem hmem
      refine { pools := ?pools_3, total := ?total_3, sem := ?sem_3, semLe := ?semLe_3, wg := ?wg_3,
               regs := ?regs_3, errs := ?errs_3, regsLen := ?regsLen_3, errsLen := ?errsLen_3,
               spawning := ?spawning_3, started := ?started_3, waited := ?waited_3,
               rclosed := ?rclosed_3, eclosed := ?eclosed_3, mainErr := ?mainErr_3,
               mainRet := ?mainRet_3, errorsLate := ?errorsLate_3, noPanic := ?noPanic_3 }
        <;> dsimp only <;> try assumption
      case pools_3 =>
        intro a
        have := pools a
        have := hcnt a
        simp only [List.count_cons, beq_iff_eq] at *
        omega
      case total_3 =>
        try simp only [List.length_cons]
        omega
      case sem_3 =>
        try simp only [List.length_cons]
        omega
      case wg_3 =>
        try simp only [List.length_cons]
        omega
      case waited_3 =>
        intro hw
        exact absurd (waited hw).1 hne
    · cases hstep
  | callReturns i =>
    simp only [scanStepLive] at hstep
    split at hstep
    · rename_i hmem
      cases hstep
      have hcnt := fun a => count_erase_add a i s.inFlight hmem
      have hlen := length_erase_add i s.inFlight hmem
      have hne : s.inFlight ≠ [] := List.ne_nil_of_mem hmem
      refine { pools := ?pools_4, total := ?total_4, sem := ?sem_4, semLe := ?semLe_4, wg := ?wg_4,
               regs := ?regs_4, errs := ?errs_4, regsLen := ?regsLen_4, errsLen := ?errsLen_4,
               spawning := ?spawning_4, started := ?started_4, waited := ?waited_4,
               rclosed := ?rclosed_4, eclosed := ?eclosed_4, mainErr := ?mainErr_4,
               mainRet := ?mainRet_4, errorsLate := ?errorsLate_4, noPanic := ?noPanic_4 }
        <;> dsimp only <;> try assumption
      case pools_4 =>
        intro a
        have := pools a
        have := hcnt a
        simp only [List.count_cons, beq_iff_eq] at *
        omega
      case total_4 =>
        try simp only [List.length_cons]
        omega
      case sem_4 =>
        try simp only [List.length_cons]
        omega
      case wg_4 =>
        try simp only [List.length_cons]
        omega
      case waited_4 =>
        intro hw
        exact absurd (waited hw).2.1 hne
    · cases hstep
  | deliver i =>
    simp only [scanStepLive] at hstep
    split at hstep
    · rename_i hmem
      have hcnt := fun a => count_erase_add a i s.returned hmem
      have hlen := length_erase_add i s.returned hmem
      have hne : s.returned ≠ [] := List.ne_nil_of_mem hmem
      have hopenE : s.errorsClosed = false := by
        cases hE : s.errorsClosed with
        | false => rfl
        | true => exact absurd (waited (Or.inr (Or.inr (eclosed.mp hE)))).2.2.1 hne
      have hopenR : s.regionsClosed = false := by
        cases hR : s.regionsClosed with
        | false => rfl
        | true =>
          have hw : s.closerPc = CloserPc.closingRegions ∨ s.closerPc = CloserPc.closingErrors
              ∨ s.closerPc = CloserPc.finished := by
            rcases rclosed.mp hR with h1 | h1
            · exact Or.inr (Or.inl h1)
            · exact Or.inr (Or.inr h1)
          exact absurd (waited hw).2.2.1 hne
      split at hstep
      · rename_i err hf
        have hcand := failureOf_candidateOf regions i err hf
        rw [if_neg (by simp [hopenE])] at hstep
        split at hstep
        · rename_i hcap
          cases hstep
          refine { pools := ?pools_5, total := ?total_5, sem := ?sem_5, semLe := ?semLe_5, wg := ?wg_5,
                   regs := ?regs_5, errs := ?errs_5, regsLen := ?regsLen_5, errsLen := ?errsLen_5,
                   spawning := ?spawning_5, started := ?started_5, waited := ?waited_5,
                   rclosed := ?rclosed_5, eclosed := ?eclosed_5, mainErr := ?mainErr_5,
                   mainRet := ?mainRet_5, errorsLate := ?errorsLate_5, noPanic := ?noPanic_5 }
            <;> dsimp only <;> try assumption
          case pools_5 =>
            intro a
            have := pools a
            have := hcnt a
            simp only [List.count_cons, beq_iff_eq] at *
            omega
          case total_5 =>
            try simp only [List.length_cons]
            omega
          case sem_5 =>
            try simp only [List.length_cons]
            omega
          case wg_5 =>
            try simp only [List.length_cons]
            omega
          case regs_5 =>
            intro x
            have hr := regs x
            simp only [tally_cons, hcand]
            simpa using hr
          case errs_5 =>
            intro x
            have := errs x
            simp only [tally_cons, hf, List.count_append, List.count_cons, List.count_nil,
              Option.some.injEq, beq_iff_eq] at *
            omega
          case regsLen_5 =>
            try simp only [List.length_cons]
            omega
          case errsLen_5 =>
            simp only [List.length_cons, List.length_append, List.length_nil]
            omega
          case mainRet_5 =>
            intro hm
            have := (mainRet hm).1
            rw [hopenE] at this
            cases this
          case waited_5 =>
            intro hw
            exact absurd (waited hw).2.2.1 hne
        · cases hstep
      · rename_i regionName hf hcand
        rw [if_neg (by simp [hopenR])] at hstep
        split at hstep
        · rename_i hcap
          cases hstep
          refine { pools := ?pools_6, total := ?total_6, sem := ?sem_6, semLe := ?semLe_6, wg := ?wg_6,
                   regs := ?regs_6, errs := ?errs_6, regsLen := ?regsLen_6, errsLen := ?errsLen_6,
                   spawning := ?spawning_6, started := ?started_6, waited := ?waited_6,
                   rclosed := ?rclosed_6, eclosed := ?eclosed_6, mainErr := ?mainErr_6,
                   mainRet := ?mainRet_6, errorsLate := ?errorsLate_6, noPanic := ?noPanic_6 }
            <;> dsimp only <;> try assumption
          case pools_6 =>
            intro a
            have := pools a
            have := hcnt a
            simp only [List.count_cons, beq_iff_eq] at *
            omega
          case total_6 =>
            try simp only [List.length_cons]
            omega
          case sem_6 =>
            try simp only [List.length_cons]
            omega
          case wg_6 =>
            try simp only [List.length_cons]
            omega
          case regs_6 =>
            intro x
            have := regs x
            simp only [tally_cons, hcand, List.count_append, List.count_cons, List.count_nil,
              Option.some.injEq, beq_iff_eq] at *
            omega
          case errs_6 =>
            intro x
            have := errs x
            simp only [tally_cons, hf] at *
            simpa using this
          case regsLen_6 =>
            simp only [List.length_cons, List.length_append, List.length_nil]
            omega
          case errsLen_6 =>
            try simp only [List.length_cons]
            omega
          case mainErr_6 =>
            intro hm
            have := (mainErr hm).1
            rw [hopenR] at this
            cases this
          case mainRet_6 =>
            intro hm
            have := (mainRet hm).1
            exact absurd (waited (Or.inr (Or.inr (eclosed.mp this)))).2.2.1 hne
          case waited_6 =>
            intro hw
            exact absurd (waited hw).2.2.1 hne
        · cases hstep
      · rename_i hf hcand
        cases hstep
        refine { pools := ?pools_7, total := ?total_7, sem := ?sem_7, semLe := ?semLe_7, wg := ?wg_7,
                 regs := ?regs_7, errs := ?errs_7, regsLen := ?regsLen_7, errsLen := ?errsLen_7,
                 spawning := ?spawning_7, started := ?started_7, waited := ?waited_7,
                 rclosed := ?rclosed_7, eclosed := ?eclosed_7, mainErr := ?mainErr_7,
                 mainRet := ?mainRet_7, errorsLate := ?errorsLate_7, noPanic := ?noPanic_7 }
          <;> dsimp only <;> try assumption
        case pools_7 =>
          intro a
          have := pools a
          have := hcnt a
          simp only [List.count_cons, beq_iff_eq] at *
          omega
        case total_7 =>
          try simp only [List.length_cons]
          omega
        case sem_7 =>
          try simp only [List.length_cons]
          omega
        case wg_7 =>
          try simp only [List.length_cons]
          omega
        case regs_7 =>
          intro x
          have := regs x
          simp only [tally_cons, hcand] at *
          simpa using this
        case errs_7 =>
          intro x
          have := errs x
          simp only [tally_cons, hf] at *
          simpa using this
        case regsLen_7 =>
          try simp only [List.length_cons]
          omega
        case errsLen_7 =>
          try simp only [List.length_cons]
          omega
        case waited_7 =>
          intro hw
          exact absurd (waited hw).2.2.1 hne
    · cases hstep
  | release i =>
    simp only [scanStepLive] at hstep
    split at hstep
    · rename_i hg
      obtain ⟨hmem, hpos⟩ := hg
      cases hstep
      have hcnt := fun a => count_erase_add a i s.delivered hmem
      have hlen := length_erase_add i s.delivered hmem
      have hne : s.delivered ≠ [] := List.ne_nil_of_mem hmem
      refine { pools := ?pools_8, total := ?total_8, sem := ?sem_8, semLe := ?semLe_8, wg := ?wg_8,
               regs := ?regs_8, errs := ?errs_8, regsLen := ?regsLen_8, errsLen := ?errsLen_8,
               spawning := ?spawning_8, started := ?started_8, waited := ?waited_8,
               rclosed := ?rclosed_8, eclosed := ?eclosed_8, mainErr := ?mainErr_8,
               mainRet := ?mainRet_8, errorsLate := ?errorsLate_8, noPanic := ?noPanic_8 }
        <;> dsimp only <;> try assumption
      case pools_8 =>
        intro a
        have := pools a
        have := hcnt a
        simp only [List.count_cons, beq_iff_eq] at *
        omega
      case total_8 =>
        try simp only [List.length_cons]
        omega
      case sem_8 =>
        try simp only [List.length_cons]
        omega
      case semLe_8 => omega
      case wg_8 =>
        try simp only [List.length_cons]
        omega
      case regs_8 =>
        intro x
        have := regs x
        have := tally_erase (candidateOf regions) x i s.delivered hmem
        simp only [tally_cons] at *
        omega
      case errs_8 =>
        intro x
        have := errs x
        have := tally_erase (failureOf regions) x i s.delivered hmem
        simp only [tally_cons] at *
        omega
      case regsLen_8 =>
        try simp only [List.length_cons]
        omega
      case errsLen_8 =>
        try simp only [List.length_cons]
        omega
      case waited_8 =>
        intro hw
        exact absurd (waited hw).2.2.2.1 hne
    · cases hstep
  | done i =>
    simp only [scanStepLive] at hstep
    split at hstep
    · rename_i hmem
      have hwgpos : 0 < s.wg := by
        have := List.length_pos_of_mem hmem
        omega
      rw [if_pos hwgpos] at hstep
      cases hstep
      have hcnt := fun a => count_erase_add a i s.released hmem
      have hlen := length_erase_add i s.released hmem
      have hne : s.released ≠ [] := List.ne_nil_of_mem hmem
      refine { pools := ?pools_9, total := ?total_9, sem := ?sem_9, semLe := ?semLe_9, wg := ?wg_9,
               regs := ?regs_9, errs := ?errs_9, regsLen := ?regsLen_9, errsLen := ?errsLen_9,
               spawning := ?spawning_9, started := ?started_9, waited := ?waited_9,
               rclosed := ?rclosed_9, eclosed := ?eclosed_9, mainErr := ?mainErr_9,
               mainRet := ?mainRet_9, errorsLate := ?errorsLate_9, noPanic := ?noPanic_9 }
        <;> dsimp only <;> try assumption
      case pools_9 =>
        intro a
        have := pools a
        have := hcnt a
        simp only [List.count_cons, beq_iff_eq] at *
        omega
      case total_9 =>
        try simp only [List.length_cons]
        omega
      case wg_9 =>
        try simp only [List.length_cons]
        omega
      case regs_9 =>
        intro x
        have := regs x
        have := tally_erase (candidateOf regions) x i s.released hmem
        simp only [tally_cons] at *
        omega
      case errs_9 =>
        intro x
        have := errs x
        have := tally_erase (failureOf regions) x i s.released hmem
        simp only [tally_cons] at *
        omega
      case regsLen_9 =>
        try simp only [List.length_cons]
        omega
      case errsLen_9 =>
        try simp only [List.length_cons]
        omega
      case waited_9 =>
        intro hw
        exact absurd (waited hw).2.2.2.2 hne
    · cases hstep
  | waitReturns =>
    simp only [scanStepLive] at hstep
    split at hstep
    · rename_i hg
      obtain ⟨hc, hwg⟩ := hg
      cases hstep
      refine { pools := ?pools_10, total := ?total_10, sem := ?sem_10, semLe := ?semLe_10, wg := ?wg_10,
               regs := ?regs_10, errs := ?errs_10, regsLen := ?regsLen_10, errsLen := ?errsLen_10,
               spawning := ?spawning_10, started := ?started_10, waited := ?waited_10,
               rclosed := ?rclosed_10, eclosed := ?eclosed_10, mainErr := ?mainErr_10,
               mainRet := ?mainRet_10, errorsLate := ?errorsLate_10, noPanic := ?noPanic_10 }
        <;> dsimp only <;> try assumption
      case spawning_10 =>
        rw [hc] at spawning
        simpa using spawning
      case started_10 =>
        intro _
        exact started (by rw [hc]; simp)
      case waited_10 =>
        intro _
        have h0 : s.waiting.length = 0 ∧ s.inFlight.length = 0 ∧ s.returned.length = 0
            ∧ s.delivered.length = 0 ∧ s.released.length = 0 := by omega
        simpa [List.length_eq_zero] using h0
      case rclosed_10 =>
        rw [hc] at rclosed
        simpa using rclosed
      case eclosed_10 =>
        rw [hc] at eclosed
        simpa using eclosed
    · cases hstep
  | closeRegions =>
    simp only [scanStepLive] at hstep
    split at hstep
    · rename_i hc
      cases hstep
      refine { pools := ?pools_11, total := ?total_11, sem := ?sem_11, semLe := ?semLe_11, wg := ?wg_11,
               regs := ?regs_11, errs := ?errs_11, regsLen := ?regsLen_11, errsLen := ?errsLen_11,
               spawning := ?spawning_11, started := ?started_11, waited := ?waited_11,
               rclosed := ?rclosed_11, eclosed := ?eclosed_11, mainErr := ?mainErr_11,
               mainRet := ?mainRet_11, errorsLate := ?errorsLate_11, noPanic := ?noPanic_11 }
        <;> dsimp only <;> try assumption
      case spawning_11 =>
        rw [hc] at spawning
        simpa using spawning
      case started_11 =>
        intro _
        exact started (by rw [hc]; simp)
      case waited_11 =>
        intro _
        exact waited (Or.inl hc)
      case rclosed_11 => exact ⟨fun _ => Or.inl rfl, fun _ => rfl⟩
      case eclosed_11 =>
        rw [hc] at eclosed
        simpa using eclosed
      case mainErr_11 =>
        intro hm
        exact ⟨rfl, (mainErr hm).2⟩
    · cases hstep
  | closeErrors =>
    simp only [scanStepLive] at hstep
    split at hstep
    · rename_i hc
      cases hstep
      refine { pools := ?pools_12, total := ?total_12, sem := ?sem_12, semLe := ?semLe_12, wg := ?wg_12,
               regs := ?regs_12, errs := ?errs_12, regsLen := ?regsLen_12, errsLen := ?errsLen_12,
               spawning := ?spawning_12, started := ?started_12, waited := ?waited_12,
               rclosed := ?rclosed_12, eclosed := ?eclosed_12, mainErr := ?mainErr_12,
               mainRet := ?mainRet_12, errorsLate := ?errorsLate_12, noPanic := ?noPanic_12 }
        <;> dsimp only <;> try assumption
      case spawning_12 =>
        rw [hc] at spawning
        simpa using spawning
      case started_12 =>
        intro _
        exact started (by rw [hc]; simp)
      case waited_12 =>
        intro _
        exact waited (Or.inr (Or.inl hc))
      case rclosed_12 =>
        have := rclosed.mpr (Or.inl hc)
        simpa using this
      case eclosed_12 => exact ⟨fun _ => rfl, fun _ => rfl⟩
      case mainRet_12 =>
        intro hm
        exact ⟨rfl, (mainRet hm).2⟩
    · cases hstep
  | receiveRegion =>
    simp only [scanStepLive] at hstep
    split at hstep
    · rename_i region rest hm hu
      cases hstep
      refine { pools := ?pools_13, total := ?total_13, sem := ?sem_13, semLe := ?semLe_13, wg := ?wg_13,
               regs := ?regs_13, errs := ?errs_13, regsLen := ?regsLen_13, errsLen := ?errsLen_13,
               spawning := ?spawning_13, started := ?started_13, waited := ?waited_13,
               rclosed := ?rclosed_13, eclosed := ?eclosed_13, mainErr := ?mainErr_13,
               mainRet := ?mainRet_13, errorsLate := ?errorsLate_13, noPanic := ?noPanic_13 }
        <;> dsimp only <;> try assumption
      case regs_13 =>
        intro x
        have := regs x
        rw [hu] at this
        simp only [List.count_append, List.count_cons, List.count_nil] at *
        omega
      case regsLen_13 =>
        rw [hu] at regsLen
        simp only [List.length_append, List.length_cons, List.length_nil] at *
        omega
      case mainErr_13 =>
        intro hw
        rw [hm] at hw
        cases hw
      case mainRet_13 =>
        intro hw
        rw [hm] at hw
        cases hw
    · cases hstep
  | regionsDrained =>
    simp only [scanStepLive] at hstep
    split at hstep
    · rename_i hm hu
      split at hstep
      · rename_i hcl
        cases hstep
        have hns : s.closerPc ≠ CloserPc.notStarted := by
          intro hc
          rw [spawning.symm.mp hc] at hm
          cases hm
        refine { pools := ?pools_14, total := ?total_14, sem := ?sem_14, semLe := ?semLe_14, wg := ?wg_14,
                 regs := ?regs_14, errs := ?errs_14, regsLen := ?regsLen_14, errsLen := ?errsLen_14,
                 spawning := ?spawning_14, started := ?started_14, waited := ?waited_14,
                 rclosed := ?rclosed_14, eclosed := ?eclosed_14, mainErr := ?mainErr_14,
                 mainRet := ?mainRet_14, errorsLate := ?errorsLate_14, noPanic := ?noPanic_14 }
          <;> dsimp only <;> try assumption
        case spawning_14 =>
          constructor
          · intro hw; cases hw
          · intro hw; exact absurd hw hns
        case mainErr_14 => intro _; exact ⟨hcl, hu⟩
        case mainRet_14 => intro hw; cases hw
        case errorsLate_14 =>
          intro hw
          rcases hw with hw | hw <;> cases hw
      · cases hstep
    · cases hstep
  | receiveError =>
    simp only [scanStepLive] at hstep
    split at hstep
    · rename_i err rest hm hu
      cases hstep
      refine { pools := ?pools_15, total := ?total_15, sem := ?sem_15, semLe := ?semLe_15, wg := ?wg_15,
               regs := ?regs_15, errs := ?errs_15, regsLen := ?regsLen_15, errsLen := ?errsLen_15,
               spawning := ?spawning_15, started := ?started_15, waited := ?waited_15,
               rclosed := ?rclosed_15, eclosed := ?eclosed_15, mainErr := ?mainErr_15,
               mainRet := ?mainRet_15, errorsLate := ?errorsLate_15, noPanic := ?noPanic_15 }
        <;> dsimp only <;> try assumption
      case errs_15 =>
        intro x
        have := errs x
        rw [hu] at this
        simp only [List.count_append, List.count_cons, List.count_nil] at *
        omega
      case errsLen_15 =>
        rw [hu] at errsLen
        simp only [List.length_append, List.length_cons, List.length_nil] at *
        omega
      case mainRet_15 =>
        intro hw
        rw [hm] at hw
        cases hw
      case errorsLate_15 =>
        intro hw
        rw [hm] at hw
        rcases hw with hw | hw <;> cases hw
    · cases hstep
  | errorsDrained =>
    simp only [scanStepLive] at hstep
    split at hstep
    · rename_i hm hu
      split at hstep
      · rename_i hcl
        cases hstep
        have hns : s.closerPc ≠ CloserPc.notStarted := by
          intro hc
          rw [spawning.symm.mp hc] at hm
          cases hm
        refine { pools := ?pools_16, total := ?total_16, sem := ?sem_16, semLe := ?semLe_16, wg := ?wg_16,
                 regs := ?regs_16, errs := ?errs_16, regsLen := ?regsLen_16, errsLen := ?errsLen_16,
                 spawning := ?spawning_16, started := ?started_16, waited := ?waited_16,
                 rclosed := ?rclosed_16, eclosed := ?eclosed_16, mainErr := ?mainErr_16,
                 mainRet := ?mainRet_16, errorsLate := ?errorsLate_16, noPanic := ?noPanic_16 }
          <;> dsimp only <;> try assumption
        case spawning_16 =>
          constructor
          · intro hw; cases hw
          · intro hw; exact absurd hw hns
        case mainErr_16 => intro hw; cases hw
        case mainRet_16 => intro _; exact ⟨hcl, hu, (mainErr hm).2⟩
        case errorsLate_16 =>
          intro hw
          rcases hw with hw | hw <;> cases hw
      · cases hstep
    · cases hstep

theorem scanStep_inv (regions : List (String × Client)) (s s' : ScanState) (e : Event)
    (h : ScanInv regions s) (hstep : scanStep regions s e = some s') :
    ScanInv regions s' := by
  unfold scanStep at hstep
  rw [h.noPanic] at hstep
  exact scanStepLive_inv regions s s' e h (by simpa using hstep)

theorem scanRun_inv (regions : List (String × Client)) (events : List Event) :
    ∀ (s s' : ScanState), ScanInv regions s → scanRun regions s events = some s' →
      ScanInv regions s' := by
  induction events with
  | nil =>
    intro s s' h hrun
    simp only [scanRun, Option.some.injEq] at hrun
    rw [← hrun]
    exact h
  | cons e rest ih =>
    intro s s' h hrun
    simp only [scanRun] at hrun
    cases hstep : scanStep regions s e with
    | none => simp [hstep] at hrun
    | some next =>
      simp only [hstep] at hrun
      exact ih next s' (scanStep_inv regions s next e h hstep) hrun

theorem scan_reachable_inv (regions : List (String × Client)) (events : List Event)
    (s : ScanState) (hrun : scanRun regions (scanInit regions) events = some s) :
    ScanInv regions s :=
  scanRun_inv regions events (scanInit regions) s (scanInit_inv regions) hrun

theorem range_filterMap_getElem? {α β : Type} (g : α → Option β) (l : List α) :
    (List.range l.length).filterMap (fun i => (l[i]?).bind g) = l.filterMap g := by
  induction l with
  | nil => rfl
  | cons a l ih =>
    rw [List.length_cons, List.range_succ_eq_map, List.filterMap_cons, List.filterMap_map]
    have hs : (fun i => ((a :: l)[i]?).bind g) ∘ Nat.succ = fun i => (l[i]?).bind g := by
      funext i
      simp
    rw [hs, ih]
    simp only [List.getElem?_cons_zero, Option.some_bind, List.filterMap_cons]

theorem candidateOf_eq (regions : List (String × Client)) :
    candidateOf regions = fun i => (regions[i]?).bind candidateOfListing := by
  funext i
  unfold candidateOf candidateOfListing
  cases regions[i]? with
  | none => rfl
  | some rc => obtain ⟨r, c⟩ := rc; rfl

theorem failureOf_eq (regions : List (String × Client)) :
    failureOf regions = fun i => (regions[i]?).bind failureOfListing := by
  funext i
  unfold failureOf failureOfListing
  cases regions[i]? with
  | none => rfl
  | some rc => obtain ⟨r, c⟩ := rc; rfl

theorem scan_final (regions : List (String × Client)) (s : ScanState)
    (h : ScanInv regions s) (hret : s.mainPc = MainPc.returned) :
    s.result.Perm (expectedCandidates regions) ∧ s.errors.Perm (expectedErrors regions) ∧
    s.finished.length = regions.length := by
  obtain ⟨hec, hech, hrch⟩ := h.mainRet hret
  have hfin : s.closerPc = CloserPc.finished := h.eclosed.mp hec
  obtain ⟨hw, hi, hr, hd, hl⟩ := h.waited (Or.inr (Or.inr hfin))
  have hu : s.unspawned = [] := h.started (by rw [hfin]; simp)
  have hperm : s.finished.Perm (List.range regions.length) := by
    rw [List.perm_iff_count]
    intro a
    have := h.pools a
    rw [hw, hi, hr, hd, hl, hu] at this
    simpa using this
  refine ⟨?_, ?_, ?_⟩
  · have h1 : s.result.Perm (s.finished.filterMap (candidateOf regions)) := by
      rw [List.perm_iff_count]
      intro x
      have := h.regs x
      rw [hd, hl, hrch] at this
      simpa [tally] using this
    refine h1.trans ?_
    have h2 := hperm.filterMap (candidateOf regions)
    rw [candidateOf_eq, range_filterMap_getElem?] at h2
    rw [candidateOf_eq]
    exact h2
  · have h1 : s.errors.Perm (s.finished.filterMap (failureOf regions)) := by
      rw [List.perm_iff_count]
      intro x
      have := h.errs x
      rw [hd, hl, hech] at this
      simpa [tally] using this
    refine h1.trans ?_
    have h2 := hperm.filterMap (failureOf regions)
    rw [failureOf_eq, range_filterMap_getElem?] at h2
    rw [failureOf_eq]
    exact h2
  · have := h.total
    rw [hw, hi, hr, hd, hl, hu] at this
    simpa using this

theorem scanStep_measure (regions : List (String × Client)) (s s' : ScanState) (e : Event)
    (h : ScanInv regions s) (hstep : scanStep regions s e = some s') :
    scanMeasure s' < scanMeasure s := by
  unfold scanStep at hstep
  cases hp : s.panicked with
  | true => simp [hp] at hstep
  | false =>
    rw [hp] at hstep
    simp only [Bool.false_eq_true, if_false] at hstep
    cases e with
    | spawn =>
      simp only [scanStepLive] at hstep
      split at hstep
      · rename_i i rest hm hu
        cases hstep
        simp only [scanMeasure, hu, hp, List.length_cons]
        omega
      · cases hstep
    | startCloser =>
      simp only [scanStepLive] at hstep
      split at hstep
      · rename_i hm hu
        cases hstep
        simp only [scanMeasure, hm, hp, h.spawning.mp hm]
        omega
      · cases hstep
    | acquire i =>
      simp only [scanStepLive] at hstep
      split at hstep
      · rename_i hg
        cases hstep
        have hlen := length_erase_add i s.waiting hg.1
        simp only [scanMeasure, hp, List.length_cons]
        omega
      · cases hstep
    | callReturns i =>
      simp only [scanStepLive] at hstep
      split at hstep
      · rename_i hmem
        cases hstep
        have hlen := length_erase_add i s.inFlight hmem
        simp only [scanMeasure, hp, List.length_cons]
        omega
      · cases hstep
    | deliver i =>
      simp only [scanStepLive] at hstep
      split at hstep
      · rename_i hmem
        have hlen := length_erase_add i s.returned hmem
        split at hstep
        · split at hstep
          · cases hstep
            simp [scanMeasure, hp]
          · split at hstep
            · cases hstep
              simp only [scanMeasure, hp, List.length_cons, List.length_append, List.length_nil]
              omega
            · cases hstep
        · split at hstep
          · cases hstep
            simp [scanMeasure, hp]
          · split at hstep
            · cases hstep
              simp only [scanMeasure, hp, List.length_cons, List.length_append, List.length_nil]
              omega
            · cases hstep
        · cases hstep
          simp only [scanMeasure, hp, List.length_cons]
          omega
      · cases hstep
    | release i =>
      simp only [scanStepLive] at hstep
      split at hstep
      · rename_i hg
        cases hstep
        have hlen := length_erase_add i s.delivered hg.1
        simp only [scanMeasure, hp, List.length_cons]
        omega
      · cases hstep
    | done i =>
      simp only [scanStepLive] at hstep
      split at hstep
      · rename_i hmem
        have hlen := length_erase_add i s.released hmem
        split at hstep
        · cases hstep
          simp only [scanMeasure, hp, List.length_cons]
          omega
        · cases hstep
          simp [scanMeasure, hp]
      · cases hstep
    | waitReturns =>
      simp only [scanStepLive] at hstep
      split at hstep
      · rename_i hg
        cases hstep
        simp only [scanMeasure, hg.1, hp]
        omega
      · cases hstep
    | closeRegions =>
      simp only [scanStepLive] at hstep
      split at hstep
      · rename_i hc
        cases hstep
        simp only [scanMeasure, hc, hp]
        omega
      · cases hstep
    | closeErrors =>
      simp only [scanStepLive] at hstep
      split at hstep
      · rename_i hc
        cases hstep
        simp only [scanMeasure, hc, hp]
        omega
      · cases hstep
    | receiveRegion =>
      simp only [scanStepLive] at hstep
      split at hstep
      · rename_i region rest hm hu
        cases hstep
        simp only [scanMeasure, hu, hp, List.length_cons]
        omega
      · cases hstep
    | regionsDrained =>
      simp only [scanStepLive] at hstep
      split at hstep
      · rename_i hm hu
        split at hstep
        · cases hstep
          simp only [scanMeasure, hm, hp]
          omega
        · cases hstep
      · cases hstep
    | receiveError =>
      simp only [scanStepLive] at hstep
      split at hstep
      · rename_i err rest hm hu
        cases hstep
        simp only [scanMeasure, hu, hp, List.length_cons]
        omega
      · cases hstep
    | errorsDrained =>
      simp only [scanStepLive] at hstep
      split at hstep
      · rename_i hm hu
        split at hstep
        · cases hstep
          simp only [scanMeasure, hm, hp]
          omega
        · cases hstep
      · cases hstep

theorem scanRun_length (regions : List (String × Client)) (events : List Event) :
    ∀ (s s' : ScanState), ScanInv regions s → scanRun regions s events = some s' →
      events.length + scanMeasure s' ≤ scanMeasure s := by
  induction events with
  | nil =>
    intro s s' _ hrun
    simp only [scanRun, Option.some.injEq] at hrun
    rw [hrun]
    simp
  | cons e rest ih =>
    intro s s' hinv hrun
    simp only [scanRun] at hrun
    cases hstep : scanStep regions s e with
    | none => simp [hstep] at hrun
    | some next =>
      simp only [hstep] at hrun
      have h1 := ih next s' (scanStep_inv regions s next e hinv hstep) hrun
      have h2 := scanStep_measure regions s next e hinv hstep
      simp only [List.length_cons]
      omega

theorem scanMeasure_init (regions : List (String × Client)) :
    scanMeasure (scanInit regions) = 12 * regions.length + 8 := by
  simp [scanMeasure, scanInit]

theorem scan_progress_tasks (regions : List (String × Client)) (s : ScanState)
    (h : ScanInv regions s) (hwg : s.wg ≠ 0) :
    ∃ e s', scanStepLive regions s e = some s' := by
  have hwg' := h.wg
  have hsem := h.sem
  cases hrel : s.released with
  | cons i rest =>
    by_cases hpos : 0 < s.wg
    · exact ⟨Event.done i, by simp [scanStepLive, hrel, hpos]⟩
    · exact ⟨Event.done i, by simp [scanStepLive, hrel, hpos]⟩
  | nil =>
    cases hdel : s.delivered with
    | cons i rest =>
      have hpos : 0 < s.semaphore := by
        rw [hsem, hdel]
        simp
      exact ⟨Event.release i, by simp [scanStepLive, hdel, hpos]⟩
    | nil =>
      cases hret : s.returned with
      | cons i rest =>
        have htot := h.total
        have hr := h.regsLen
        have he := h.errsLen
        rw [hret] at htot
        simp only [List.length_cons] at htot
        have hcapR : s.regionsChan.length < regions.length := by omega
        have hcapE : s.errorChan.length < regions.length := by omega
        have hmem : i ∈ s.returned := by rw [hret]; simp
        cases hf : failureOf regions i with
        | some err =>
          cases hE : s.errorsClosed with
          | true => exact ⟨Event.deliver i, by simp [scanStepLive, hmem, hf, hE]⟩
          | false => exact ⟨Event.deliver i, by simp [scanStepLive, hmem, hf, hE, hcapE]⟩
        | none =>
          cases hc : candidateOf regions i with
          | some regionName =>
            cases hR : s.regionsClosed with
            | true => exact ⟨Event.deliver i, by simp [scanStepLive, hmem, hf, hc, hR]⟩
            | false =>
              exact ⟨Event.deliver i, by simp [scanStepLive, hmem, hf, hc, hR, hcapR]⟩
          | none => exact ⟨Event.deliver i, by simp [scanStepLive, hmem, hf, hc]⟩
      | nil =>
        cases hinf : s.inFlight with
        | cons i rest =>
          exact ⟨Event.callReturns i, by simp [scanStepLive, hinf]⟩
        | nil =>
          cases hwait : s.waiting with
          | cons i rest =>
            have hlt : s.semaphore < concurrencyLimit := by
              rw [hsem, hinf, hret, hdel]
              simp [concurrencyLimit]
            exact ⟨Event.acquire i, by simp [scanStepLive, hwait, hlt]⟩
          | nil =>
            exfalso
            apply hwg
            rw [hwg', hwait, hinf, hret, hdel, hrel]
            rfl

theorem scan_progress (regions : List (String × Client)) (s : ScanState)
    (h : ScanInv regions s) (hm : s.mainPc ≠ MainPc.returned) :
    ∃ e s', scanStep regions s e = some s' := by
  have hlive : ∀ e, scanStep regions s e = scanStepLive regions s e := by
    intro e
    simp [scanStep, h.noPanic]
  suffices hs : ∃ e s', scanStepLive regions s e = some s' by
    obtain ⟨e, s', he⟩ := hs
    exact ⟨e, s', by rw [hlive]; exact he⟩
  have hcloser : s.closerPc = CloserPc.waiting → ∃ e s', scanStepLive regions s e = some s' := by
    intro hc
    by_cases hwg : s.wg = 0
    · exact ⟨Event.waitReturns, by simp [scanStepLive, hc, hwg]⟩
    · exact scan_progress_tasks regions s h hwg
  cases hmain : s.mainPc with
  | returned => exact absurd hmain hm
  | spawning =>
    cases hu : s.unspawned with
    | nil => exact ⟨Event.startCloser, by simp [scanStepLive, hmain, hu]⟩
    | cons i rest => exact ⟨Event.spawn, by simp [scanStepLive, hmain, hu]⟩
  | readingRegions =>
    cases hchan : s.regionsChan with
    | cons region rest => exact ⟨Event.receiveRegion, by simp [scanStepLive, hmain, hchan]⟩
    | nil =>
      cases hcl : s.regionsClosed with
      | true => exact ⟨Event.regionsDrained, by simp [scanStepLive, hmain, hchan, hcl]⟩
      | false =>
        cases hc : s.closerPc with
        | notStarted =>
          have := h.spawning.mpr hc
          rw [hmain] at this
          cases this
        | waiting => exact hcloser hc
        | closingRegions => exact ⟨Event.closeRegions, by simp [scanStepLive, hc]⟩
        | closingErrors =>
          have := h.rclosed.mpr (Or.inl hc)
          rw [hcl] at this
          cases this
        | finished =>
          have := h.rclosed.mpr (Or.inr hc)
          rw [hcl] at this
          cases this
  | readingErrors =>
    cases hchan : s.errorChan with
    | cons err rest => exact ⟨Event.receiveError, by simp [scanStepLive, hmain, hchan]⟩
    | nil =>
      cases hcl : s.errorsClosed with
      | true => exact ⟨Event.errorsDrained, by simp [scanStepLive, hmain, hchan, hcl]⟩
      | false =>
        rcases h.rclosed.mp (h.mainErr hmain).1 with hc | hc
        · exact ⟨Event.closeErrors, by simp [scanStepLive, hc]⟩
        · have := h.eclosed.mpr hc
          rw [hcl] at this
          cases this

theorem scan_completes (regions : List (String × Client)) :
    ∀ (n : Nat) (s : ScanState), ScanInv regions s → scanMeasure s ≤ n →
      ∃ rest s', scanRun regions s rest = some s' ∧ s'.mainPc = MainPc.returned := by
  intro n
  induction n with
  | zero =>
    intro s h hm
    by_cases hret : s.mainPc = MainPc.returned
    · exact ⟨[], s, rfl, hret⟩
    · obtain ⟨e, s1, h1⟩ := scan_progress regions s h hret
      have := scanStep_measure regions s s1 e h h1
      omega
  | succ n ih =>
    intro s h hm
    by_cases hret : s.mainPc = MainPc.returned
    · exact ⟨[], s, rfl, hret⟩
    · obtain ⟨e, s1, h1⟩ := scan_progress regions s h hret
      have hlt := scanStep_measure regions s s1 e h h1
      obtain ⟨rest, s', h2, h3⟩ := ih s1 (scanStep_inv regions s s1 e h h1) (by omega)
      exact ⟨e :: rest, s', by simp [scanRun, h1, h2], h3⟩

theorem expectedCandidates_withoutFailed (regions : List (String × Client)) :
    expectedCandidates (withoutFailed regions) = expectedCandidates regions := by
  unfold expectedCandidates withoutFailed
  induction regions with
  | nil => rfl
  | cons rc rest ih =>
    cases hf : failureOfListing rc with
    | none =>
      simp only [List.filter_cons, hf, Option.isNone_none, if_true, List.filterMap_cons, ih]
    | some e =>
      have hc : candidateOfListing rc = none := by
        unfold failureOfListing at hf
        unfold candidateOfListing
        cases hg : getEC2Instances rc.2 with
        | error e' => rfl
        | ok l => simp [hg] at hf
      simp only [List.filter_cons, hf, Option.isNone_some, Bool.false_eq_true, if_false,
        List.filterMap_cons, hc, ih]

theorem expectedErrors_withoutFailed (regions : List (String × Client)) :
    expectedErrors (withoutFailed regions) = [] := by
  unfold expectedErrors withoutFailed
  induction regions with
  | nil => rfl
  | cons rc rest ih =>
    cases hf : failureOfListing rc with
    | none =>
      simp only [List.filter_cons, hf, Option.isNone_none, if_true, List.filterMap_cons, ih]
    | some e =>
      simp only [List.filter_cons, hf, Option.isNone_some, Bool.false_eq_true, if_false, ih]

theorem mem_expectedErrors (regions : List (String × Client)) (msg : String) :
    msg ∈ expectedErrors regions ↔
      ∃ rc ∈ regions, ∃ e, getEC2Instances rc.2 = Except.error e ∧ msg = regionError rc.1 e := by
  unfold expectedErrors
  rw [List.mem_filterMap]
  constructor
  · rintro ⟨rc, hmem, hf⟩
    refine ⟨rc, hmem, ?_⟩
    unfold failureOfListing at hf
    cases hg : getEC2Instances rc.2 with
    | error e =>
      rw [hg] at hf
      simp only [Option.some.injEq] at hf
      exact ⟨e, rfl, hf.symm⟩
    | ok l =>
      rw [hg] at hf
      cases hf
  · rintro ⟨rc, hmem, e, hg, hmsg⟩
    refine ⟨rc, hmem, ?_⟩
    unfold failureOfListing
    rw [hg, hmsg]

theorem expectedErrors_ne_nil (regions : List (String × Client)) :
    expectedErrors regions ≠ [] ↔
      ∃ rc ∈ regions, ∃ e, getEC2Instances rc.2 = Except.error e := by
  constructor
  · intro hne
    obtain ⟨msg, hmsg⟩ := List.exists_mem_of_ne_nil _ hne
    obtain ⟨rc, hmem, e, hg, _⟩ := (mem_expectedErrors regions msg).mp hmsg
    exact ⟨rc, hmem, e, hg⟩
  · rintro ⟨rc, hmem, e, hg⟩ hnil
    have : regionError rc.1 e ∈ expectedErrors regions :=
      (mem_expectedErrors regions _).mpr ⟨rc, hmem, e, hg, rfl⟩
    rw [hnil] at this
    cases this

theorem scanReturn_fst (s : ScanState) : (scanReturn s).1 = s.result := by
  unfold scanReturn
  split <;> rfl

theorem scanReturn_snd_isSome (s : ScanState) :
    (scanReturn s).2.isSome = true ↔ s.errors ≠ [] := by
  unfold scanReturn
  split
  · rename_i h
    simp only [Option.isSome_some, true_iff]
    intro hnil
    rw [hnil] at h
    simp at h
  · rename_i h
    simp only [Option.isSome_none, Bool.false_eq_true, false_iff, not_not]
    exact List.length_eq_zero.mp (by omega)

/-- C2. Under every schedule of the goroutines `getRegionsWithInstances` returns:
a schedule from the initial state has at most `12 * len(regions) + 8` steps, a
state before the return always has a next step, and every state reached can be
run on to the return. The region list returned is, up to order, exactly the
input regions whose listing succeeded with at least one instance, once per
occurrence in the input. -/
theorem getRegionsWithInstances_candidates (regions : List (String × Client))
    (events : List Event) (s : ScanState)
    (hrun : scanRun regions (scanInit regions) events = some s) :
    events.length ≤ 12 * regions.length + 8 ∧
    (s.mainPc ≠ MainPc.returned → ∃ e s', scanStep regions s e = some s') ∧
    (∃ rest s', scanRun regions s rest = some s' ∧ s'.mainPc = MainPc.returned) ∧
    (s.mainPc = MainPc.returned → (scanReturn s).1.Perm (expectedCandidates regions)) := by
  have hinv := scan_reachable_inv regions events s hrun
  refine ⟨?_, scan_progress regions s hinv, scan_completes regions _ s hinv (Nat.le_refl _), ?_⟩
  · have := scanRun_length regions events _ s (scanInit_inv regions) hrun
    rw [scanMeasure_init] at this
    omega
  · intro hret
    rw [scanReturn_fst]
    exact (scan_final regions s hinv hret).1

/-- C2 at the sample scan: `us-east-1` has two instances, `us-west-2` none,
`eu-west-1` fails; the schedule returns `["us-east-1"]`. -/
theorem getRegionsWithInstances_candidates_witness :
    scanRun sampleRegions (scanInit sampleRegions) sampleSchedule = some sampleFinal ∧
    sampleFinal.mainPc = MainPc.returned ∧
    (scanReturn sampleFinal).1.Perm ["us-east-1"] :=
  have hrun : scanRun sampleRegions (scanInit sampleRegions) sampleSchedule = some sampleFinal := by
    decide
  ⟨hrun, rfl,
   (getRegionsWithInstances_candidates sampleRegions sampleSchedule sampleFinal hrun).2.2.2 rfl⟩

/-- C3. When `getRegionsWithInstances` returns, its error is non-nil exactly when
the listing of at least one region failed; the errors it aggregates are, up to
order, one per failed region, each naming its region, and none for a region
whose listing succeeded (empty or not); and the candidate regions returned are,
up to order, those of any scan of the input without the failed regions, which
returns no error. -/
theorem getRegionsWithInstances_errors (regions : List (String × Client))
    (events : List Event) (s : ScanState)
    (hrun : scanRun regions (scanInit regions) events = some s)
    (hret : s.mainPc = MainPc.returned) :
    ((scanReturn s).2.isSome = true ↔
      ∃ rc ∈ regions, ∃ e, getEC2Instances rc.2 = Except.error e) ∧
    (scanReturn s).2 = (if 0 < s.errors.length then
      some ("errors occurred while getting region information: " ++ formatErrors s.errors)
      else none) ∧
    s.errors.Perm (expectedErrors regions) ∧
    (∀ msg, msg ∈ s.errors ↔
      ∃ rc ∈ regions, ∃ e, getEC2Instances rc.2 = Except.error e ∧ msg = regionError rc.1 e) ∧
    (scanReturn s).1.Perm (expectedCandidates (withoutFailed regions)) ∧
    (∀ events' s', scanRun (withoutFailed regions) (scanInit (withoutFailed regions)) events'
        = some s' → s'.mainPc = MainPc.returned →
      (scanReturn s).1.Perm (scanReturn s').1 ∧ (scanReturn s').2 = none) := by
  have hinv := scan_reachable_inv regions events s hrun
  obtain ⟨hres, herr, _⟩ := scan_final regions s hinv hret
  refine ⟨?_, ?_, herr, ?_, ?_, ?_⟩
  · rw [scanReturn_snd_isSome, ← expectedErrors_ne_nil]
    constructor
    · intro hne hnil
      rw [hnil] at herr
      exact hne herr.eq_nil
    · intro hne hnil
      rw [hnil] at herr
      exact hne herr.symm.eq_nil
  · unfold scanReturn
    split <;> rfl
  · intro msg
    rw [herr.mem_iff, mem_expectedErrors]
  · rw [scanReturn_fst, expectedCandidates_withoutFailed]
    exact hres
  · intro events' s' hrun' hret'
    have hinv' := scan_reachable_inv (withoutFailed regions) events' s' hrun'
    obtain ⟨hres', herr', _⟩ := scan_final (withoutFailed regions) s' hinv' hret'
    rw [expectedCandidates_withoutFailed] at hres'
    rw [expectedErrors_withoutFailed] at herr'
    refine ⟨?_, ?_⟩
    · rw [scanReturn_fst, scanReturn_fst]
      exact hres.trans hres'.symm
    · have hnil : s'.errors = [] := herr'.eq_nil
      simp [scanReturn, hnil]

/-- C3 at the sample scan: the listing of `eu-west-1` fails, the aggregated
error has the one entry for `eu-west-1`, and `us-east-1` is still returned. -/
theorem getRegionsWithInstances_errors_witness :
    scanReturn sampleFinal =
      (["us-east-1"], some ("errors occurred while getting region information: "
        ++ "[failed to get EC2 instances for region eu-west-1: RequestExpired]")) ∧
    sampleFinal.errors.Perm (expectedErrors sampleRegions) :=
  have hrun : scanRun sampleRegions (scanInit sampleRegions) sampleSchedule = some sampleFinal := by
    decide
  ⟨by decide,
   (getRegionsWithInstances_errors sampleRegions sampleSchedule sampleFinal hrun rfl).2.2.1⟩

/-- C10, as the code has it. In every state of every schedule at most 10
`getEC2Instances` calls are in flight (the semaphore holds at most 10 elements,
one per goroutine between its acquire and its release). The calling goroutine
leaves the loop over the candidate channel, reads the error channel and returns
only after every goroutine has called `wg.Done()`; it may receive candidates
already sent while other goroutines are still running. -/
theorem getRegionsWithInstances_in_flight (regions : List (String × Client))
    (events : List Event) (s : ScanState)
    (hrun : scanRun regions (scanInit regions) events = some s) :
    s.inFlight.length ≤ 10 ∧ s.semaphore ≤ 10 ∧
    s.inFlight.length ≤ s.semaphore ∧
    (s.mainPc = MainPc.readingErrors ∨ s.mainPc = MainPc.returned ∨ s.errors ≠ [] →
      s.finished.length = regions.length ∧ s.wg = 0) := by
  have hinv := scan_reachable_inv regions events s hrun
  have hsem := hinv.sem
  have hle := hinv.semLe
  unfold concurrencyLimit at hle
  refine ⟨by omega, hle, by omega, ?_⟩
  intro hmain
  have hclosed : s.regionsClosed = true := by
    rcases hmain with hm | hm | hm
    · exact (hinv.mainErr hm).1
    · have := (hinv.mainRet hm).1
      exact hinv.rclosed.mpr (Or.inr (hinv.eclosed.mp this))
    · cases hmp : s.mainPc with
      | spawning => exact absurd (hinv.errorsLate (Or.inl hmp)) hm
      | readingRegions => exact absurd (hinv.errorsLate (Or.inr hmp)) hm
      | readingErrors => exact (hinv.mainErr hmp).1
      | returned =>
        have := (hinv.mainRet hmp).1
        exact hinv.rclosed.mpr (Or.inr (hinv.eclosed.mp this))
  have hcl : s.closerPc = CloserPc.closingRegions ∨ s.closerPc = CloserPc.closingErrors
      ∨ s.closerPc = CloserPc.finished := by
    rcases hinv.rclosed.mp hclosed with h1 | h1
    · exact Or.inr (Or.inl h1)
    · exact Or.inr (Or.inr h1)
  obtain ⟨hw, hi, hr, hd, hl⟩ := hinv.waited hcl
  have hu : s.unspawned = [] := hinv.started (by
    rcases hinv.rclosed.mp hclosed with h1 | h1 <;> rw [h1] <;> simp)
  have htot := hinv.total
  have hwg := hinv.wg
  rw [hw, hi, hr, hd, hl, hu] at htot
  rw [hw, hi, hr, hd, hl] at hwg
  exact ⟨by simpa using htot, by simpa using hwg⟩

/-- C10 at the sample scan: at its end nothing is in flight and all three
goroutines have finished. -/
theorem getRegionsWithInstances_in_flight_witness :
    sampleFinal.inFlight.length ≤ 10 ∧ sampleFinal.finished.length = 3 :=
  have hrun : scanRun sampleRegions (scanInit sampleRegions) sampleSchedule = some sampleFinal := by
    decide
  have h := getRegionsWithInstances_in_flight sampleRegions sampleSchedule sampleFinal hrun
  ⟨h.1, (h.2.2.2 (Or.inr (Or.inl rfl))).1⟩

/-- C10 as stated fails: in a scan of two regions the calling goroutine has
received the candidate `us-east-1` (it is in `result`) while the goroutine of
`us-east-1` still holds its semaphore slot and the goroutine of `us-west-2` has
not even acquired one: no goroutine has finished. -/
theorem getRegionsWithInstances_reads_early :
    (scanRun twoBusyRegions (scanInit twoBusyRegions) earlyReceiveSchedule).map
        (fun s => (s.result, s.finished, s.delivered, s.waiting, s.wg)) =
      some (["us-east-1"], [], [0], [1], 2) := by
  decide

set_option maxRecDepth 100000 in
/-- C9 on the code: the collection loop leaves the instance of `us-east-1` and its
region aligned, but the price document of the instance has a string as on-demand
term, the type assertion in `getEC2InstancePrice` panics, and
`displayEC2InstancesTable` emits no row, in either mode. -/
theorem mainDisplay_panics_on_string_term :
    collectAllRegions oddCandidates ([], []) = some ([oddlyPriced], ["us-east-1"]) ∧
    getEC2InstancePrice sampleEnv oddlyPriced.instanceType "us-east-1" =
        Outcome.panic conversionPanic ∧
    mainDisplay sampleEnv sampleClock sampleFormatTime "View all regions" failingClient
        oddCandidates = Outcome.panic conversionPanic ∧
    mainDisplay sampleEnv sampleClock sampleFormatTime "us-east-1" (clientWith [oddlyPriced])
        oddCandidates = Outcome.panic conversionPanic := by
  decide

end Ec2cat
